import Mathlib

/-!
Verification development for the canvas HTML-editing pipeline:
response parsing, patch application, selector synthesis, selection
session, bridge injection and streaming orchestration.

Strings are modelled as `List Char` (`Str`).  JavaScript string
operations (`match` with the concrete regexes of the source, `trim`,
`startsWith`, `includes`, `replace`) are implemented character by
character with the exact semantics the source relies on.
-/

namespace Canvas

/-- JavaScript strings, modelled as lists of characters. -/
abbrev Str := List Char

/-- Coerce a Lean string literal to the model type. -/
def str (s : String) : Str := s.data

/-- Left brace character (written via its code point). -/
def lbrace : Char := Char.ofNat 123

/-- Right brace character (written via its code point). -/
def rbrace : Char := Char.ofNat 125

/-- Whitespace class used by the JavaScript `\s` regex class and by
`String.prototype.trim` (ASCII subset: space, tab, LF, CR, VT, FF). -/
def isWsChar (c : Char) : Bool :=
  c = ' ' || c = '\t' || c = '\n' || c = '\r' || c = Char.ofNat 11 || c = Char.ofNat 12

/-- `startsWith` on the model strings. -/
def startsWithL : Str → Str → Bool
  | [], _ => true
  | _ :: _, [] => false
  | a :: pat, b :: s => a = b && startsWithL pat s

/-- Index of the first occurrence of `pat` in `s` (JavaScript
`String.indexOf` / leftmost regex match position). -/
def findSubIdx (pat : Str) : Str → Option Nat
  | [] => if startsWithL pat [] then some 0 else none
  | c :: rest =>
    if startsWithL pat (c :: rest) then some 0
    else (findSubIdx pat rest).map (· + 1)

/-- JavaScript `String.includes`. -/
def hasSub (s pat : Str) : Bool := (findSubIdx pat s).isSome

/-- ASCII lower-casing, for the `/i` regex flag. -/
def lcChar (c : Char) : Char :=
  if 'A' ≤ c && c ≤ 'Z' then Char.ofNat (c.toNat + 32) else c

/-- Leftmost case-insensitive occurrence of `pat` in `s`. -/
def findSubIdxCI (pat s : Str) : Option Nat :=
  findSubIdx (pat.map lcChar) (s.map lcChar)

/-- JavaScript `String.prototype.trim`. -/
def trimL (s : Str) : Str :=
  ((s.dropWhile isWsChar).reverse.dropWhile isWsChar).reverse

/-- Capture group of the regex `tag + \s*([\s\S]*?)``` ` applied with the
`/i` flag (as in `text.match(/```json\s*([\s\S]*?)```/i)` of
`src/canvas/src/lib/differ.js`): find the leftmost case-insensitive
occurrence of the opening tag, greedily skip whitespace, then capture
lazily up to the first closing fence.  `none` when the regex does not
match. -/
def fenceCapture (tag t : Str) : Option Str :=
  match findSubIdxCI tag t with
  | none => none
  | some i =>
    let afterTag := t.drop (i + tag.length)
    let body := afterTag.dropWhile isWsChar
    match findSubIdx (str "```") body with
    | none => none
    | some j => some (body.take j)

/-! ## JSON values and `JSON.parse`

`JSON.parse` is modelled on RFC 8259 JSON, which is exactly what the
JavaScript built-in accepts.  Numeric literals are kept as their lexemes:
the engine never interprets numbers, it only inspects string-typed
members. -/

/-- JSON values.  Object member lists keep source order; duplicate keys
are resolved last-wins at lookup time, as JavaScript object literals do. -/
inductive Json where
  | jnull
  | jbool (b : Bool)
  | jnum (lexeme : Str)
  | jstr (s : Str)
  | jarr (elems : List Json)
  | jobj (members : List (Str × Json))

/-- JSON whitespace (space, tab, LF, CR). -/
def isWsJson (c : Char) : Bool :=
  c = ' ' || c = '\t' || c = '\n' || c = '\r'

/-- Value of a hexadecimal digit. -/
def hexVal (c : Char) : Option Nat :=
  if '0' ≤ c && c ≤ '9' then some (c.toNat - 48)
  else if 'a' ≤ c && c ≤ 'f' then some (c.toNat - 97 + 10)
  else if 'A' ≤ c && c ≤ 'F' then some (c.toNat - 65 + 10)
  else none

/-- Decode a JSON string body (input starts after the opening quote);
returns the content and the rest after the closing quote. -/
def decStrBody : Nat → Str → Option (Str × Str)
  | 0, _ => none
  | _ + 1, [] => none
  | fuel + 1, c :: rest =>
    if c = '"' then some ([], rest)
    else if c = '\\' then
      match rest with
      | [] => none
      | e :: r2 =>
        if e = '"' || e = '\\' || e = '/' then
          (decStrBody fuel r2).map (fun p => (e :: p.1, p.2))
        else if e = 'b' then (decStrBody fuel r2).map (fun p => (Char.ofNat 8 :: p.1, p.2))
        else if e = 'f' then (decStrBody fuel r2).map (fun p => (Char.ofNat 12 :: p.1, p.2))
        else if e = 'n' then (decStrBody fuel r2).map (fun p => ('\n' :: p.1, p.2))
        else if e = 'r' then (decStrBody fuel r2).map (fun p => ('\r' :: p.1, p.2))
        else if e = 't' then (decStrBody fuel r2).map (fun p => ('\t' :: p.1, p.2))
        else if e = 'u' then
          match r2 with
          | h1 :: h2 :: h3 :: h4 :: r3 =>
            match hexVal h1, hexVal h2, hexVal h3, hexVal h4 with
            | some a, some b, some c2, some d =>
              (decStrBody fuel r3).map
                (fun p => (Char.ofNat (((a * 16 + b) * 16 + c2) * 16 + d) :: p.1, p.2))
            | _, _, _, _ => none
          | _ => none
        else none
    else if c.toNat < 32 then none
    else (decStrBody fuel rest).map (fun p => (c :: p.1, p.2))

/-- Decode a JSON number lexeme (`-?int(.frac)?((e|E)(+|-)?digits)?` with
no leading zeros), returning the lexeme and the rest. -/
def decNum (s : Str) : Option (Str × Str) :=
  let (sign, s1) := match s with
    | '-' :: r => (['-'], r)
    | _ => (([] : Str), s)
  let intPart := s1.takeWhile Char.isDigit
  let s2 := s1.dropWhile Char.isDigit
  if intPart = [] then none
  else if 1 < intPart.length && intPart.head? = some '0' then none
  else
    let (fracPart, s3) : Str × Str := match s2 with
      | '.' :: r =>
        let ds := r.takeWhile Char.isDigit
        if ds = [] then ([], s2) else ('.' :: ds, r.dropWhile Char.isDigit)
      | _ => ([], s2)
    if s3 ≠ s2 ∨ fracPart = [] then
      -- either no fraction at all, or a well-formed fraction was consumed
      let (expPart, s4) : Str × Str := match s3 with
        | e :: r =>
          if e = 'e' || e = 'E' then
            let (sgn, r1) : Str × Str := match r with
              | '+' :: rr => (['+'], rr)
              | '-' :: rr => (['-'], rr)
              | _ => ([], r)
            let ds := r1.takeWhile Char.isDigit
            if ds = [] then ([], s3) else (e :: (sgn ++ ds), r1.dropWhile Char.isDigit)
          else ([], s3)
        | [] => ([], s3)
      some (sign ++ intPart ++ fracPart ++ expPart, s4)
    else none

mutual

/-- Decode one JSON value (leading whitespace allowed), with fuel. -/
def decVal : Nat → Str → Option (Json × Str)
  | 0, _ => none
  | fuel + 1, s0 =>
    let s := s0.dropWhile isWsJson
    match s with
    | [] => none
    | c :: rest =>
      if c = '"' then
        (decStrBody (rest.length + 1) rest).map (fun p => (Json.jstr p.1, p.2))
      else if c = lbrace then decObjItems fuel rest true
      else if c = '[' then decArrItems fuel rest true
      else if startsWithL (str "true") s then some (Json.jbool true, s.drop 4)
      else if startsWithL (str "false") s then some (Json.jbool false, s.drop 5)
      else if startsWithL (str "null") s then some (Json.jnull, s.drop 4)
      else (decNum s).map (fun p => (Json.jnum p.1, p.2))

/-- Decode array items; `first` is true right after `[`. -/
def decArrItems : Nat → Str → Bool → Option (Json × Str)
  | 0, _, _ => none
  | fuel + 1, s0, first => do
    let s := s0.dropWhile isWsJson
    if first then
      match s with
      | ']' :: rest => some (Json.jarr [], rest)
      | _ =>
        let (v, r1) ← decVal fuel s
        let (tail, r2) ← decArrRest fuel r1
        some (Json.jarr (v :: tail), r2)
    else none

/-- After one array element: either `,` and more elements or `]`. -/
def decArrRest : Nat → Str → Option (List Json × Str)
  | 0, _ => none
  | fuel + 1, s0 =>
    let s := s0.dropWhile isWsJson
    match s with
    | ']' :: rest => some ([], rest)
    | ',' :: rest => do
      let (v, r1) ← decVal fuel rest
      let (tail, r2) ← decArrRest fuel r1
      some (v :: tail, r2)
    | _ => none

/-- Decode object members; `first` is true right after `{`. -/
def decObjItems : Nat → Str → Bool → Option (Json × Str)
  | 0, _, _ => none
  | fuel + 1, s0, first => do
    let s := s0.dropWhile isWsJson
    if first then
      match s with
      | c :: rest =>
        if c = rbrace then some (Json.jobj [], rest)
        else
          let (m, r1) ← decMember fuel s
          let (tail, r2) ← decObjRest fuel r1
          some (Json.jobj (m :: tail), r2)
      | [] => none
    else none

/-- After one object member: either `,` and more members or `}`. -/
def decObjRest : Nat → Str → Option (List (Str × Json) × Str)
  | 0, _ => none
  | fuel + 1, s0 =>
    let s := s0.dropWhile isWsJson
    match s with
    | c :: rest =>
      if c = rbrace then some ([], rest)
      else if c = ',' then do
        let (m, r1) ← decMember fuel (rest.dropWhile isWsJson)
        let (tail, r2) ← decObjRest fuel r1
        some (m :: tail, r2)
      else none
    | [] => none

/-- Decode one `"key" : value` member. -/
def decMember : Nat → Str → Option ((Str × Json) × Str)
  | 0, _ => none
  | fuel + 1, s0 => do
    let s := s0.dropWhile isWsJson
    match s with
    | '"' :: rest => do
      let (k, r1) ← decStrBody (rest.length + 1) rest
      let r2 := r1.dropWhile isWsJson
      match r2 with
      | ':' :: r3 => do
        let (v, r4) ← decVal fuel r3
        some ((k, v), r4)
      | _ => none
    | _ => none

end

/-- `JSON.parse`: decode one value and require only whitespace after it;
`none` models the thrown `SyntaxError`. -/
def jsonParseJS (s : Str) : Option Json :=
  match decVal (s.length + 1) s with
  | some (v, rest) => if rest.dropWhile isWsJson = [] then some v else none
  | none => none

/-- JavaScript member read `o.op` made total: `some v` when `o` is an
object with that member (duplicate keys: last wins), `none` for a missing
member (`undefined`) and for every non-object (`undefined`, or the
`TypeError` on `null` that the surrounding `try` swallows — both make the
validation fail, which is the only observable). -/
def memberLast (j : Json) (k : Str) : Option Json :=
  match j with
  | .jobj ms => ((ms.reverse).find? (fun m => m.1 == k)).map (·.2)
  | _ => none

/-- The check `typeof ops[0].op === 'string'`. -/
def opMemberIsString (j : Json) : Bool :=
  match memberLast j (str "op") with
  | some (.jstr _) => true
  | _ => false

/-- Validation from `parseLlmResponse`
(`Array.isArray(ops) && ops.length > 0 && typeof ops[0].op === 'string'`,
src/canvas/src/lib/differ.js lines 18-22). -/
def validOpsList (j : Json) : Option (List Json) :=
  match j with
  | .jarr [] => none
  | .jarr (e :: rest) => if opMemberIsString e then some (e :: rest) else none
  | _ => none

/-- Result of parsing an LLM response
(`{type:'diff',payload}` / `{type:'full',payload}`; `null` is `none`). -/
inductive ParseResult where
  | diff (ops : List Json)
  | full (payload : Str)

/-- `parseLlmResponse` (src/canvas/src/lib/differ.js lines 12-41):
try the fenced JSON diff, then the fenced HTML block, then bare HTML,
else `null`.  The `try`/`catch` around `JSON.parse` and the member access
is the `Option` flow. -/
def parseLlmResponse (t : Str) : Option ParseResult :=
  let jsonStep : Option ParseResult :=
    match fenceCapture (str "```json") t with
    | none => none
    | some cap =>
      match jsonParseJS (trimL cap) with
      | none => none
      | some j => (validOpsList j).map ParseResult.diff
  match jsonStep with
  | some r => some r
  | none =>
    match fenceCapture (str "```html") t with
    | some cap => some (.full (trimL cap))
    | none =>
      let bare := trimL t
      if startsWithL (str "<!DOCTYPE") bare || startsWithL (str "<html") bare then
        some (.full bare)
      else none

/-- Result record of `applyLlmResponse` (`{newHtml, type}`, plus the ops
for the diff case). -/
structure ApplyOutcome where
  newHtml : Str
  rtype : String
  opsOut : Option (List Json) := none

/-- `applyLlmResponse` (src/canvas/src/lib/differ.js lines 210-216),
with the HTML-string-level diff engine `applyDiff` passed as an explicit
argument: the function dispatches on the parse result and only the
`'diff'` branch ever invokes the engine. -/
def applyLlmResponseWith (engine : Str → List Json → Str) (currentHtml llmText : Str) :
    ApplyOutcome :=
  match parseLlmResponse llmText with
  | none => { newHtml := currentHtml, rtype := "noop" }
  | some (.full p) => { newHtml := p, rtype := "full" }
  | some (.diff ops) => { newHtml := engine currentHtml ops, rtype := "diff", opsOut := some ops }

/-! ## Specification-side views of the parse rules -/

/-- The operation discriminators recognized by the patch engine: exactly
the cases of the `switch` in `_applyOp`
(src/canvas/src/lib/differ.js lines 80-193). -/
def recognizedOps : List String :=
  ["replace", "replaceStyle", "replaceAttr", "replaceText", "addClass", "removeClass",
   "insertBefore", "insertAfter", "remove", "replaceCSS", "injectStyle"]

/-- Rule 1 of the parser, as a single pipeline: fenced structured block,
decoded, validated.  `some ops` exactly when the parser will return a
patch list. -/
def jsonRuleOps (t : Str) : Option (List Json) :=
  (fenceCapture (str "```json") t).bind fun cap =>
    (jsonParseJS (trimL cap)).bind validOpsList

/-- Whether a trimmed response begins with a document-type declaration or
a root document tag (the bare-HTML rule's condition). -/
def startsDocB (bare : Str) : Bool :=
  startsWithL (str "<!DOCTYPE") bare || startsWithL (str "<html") bare

/-- Rules 2-4 of the parser, written from the specification's wording:
html-fenced block with trimmed contents, else bare document text, else
unrecognized. -/
def specLaterRules (t : Str) : Option ParseResult :=
  match fenceCapture (str "```html") t with
  | some cap => some (.full (trimL cap))
  | none =>
    if startsDocB (trimL t) then some (.full (trimL t)) else none

/-- Helper equality: the parser is the first-match-wins combination of
rule 1 (`jsonRuleOps`) and the later rules. -/
theorem parseLlmResponse_eq (t : Str) :
    parseLlmResponse t =
      (match jsonRuleOps t with
       | some ops => some (.diff ops)
       | none => specLaterRules t) := by
  unfold parseLlmResponse specLaterRules jsonRuleOps startsDocB
  cases hf : fenceCapture (str "```json") t with
  | none => simp [hf]
  | some cap =>
      simp only [hf, Option.some_bind]
      cases hp : jsonParseJS (trimL cap) with
      | none => simp [hp]
      | some j =>
          simp only [hp, Option.some_bind]
          cases hv : validOpsList j <;> simp [hv]

/-- Helper: the later rules never produce a patch list. -/
theorem specLaterRules_ne_diff (t : Str) (ops : List Json) :
    specLaterRules t ≠ some (.diff ops) := by
  unfold specLaterRules
  cases hh : fenceCapture (str "```html") t with
  | some cap => simp
  | none =>
      by_cases hs : startsDocB (trimL t) = true <;> simp [hs]

/-- Helper: inversion of the rule-1 validation. -/
theorem validOpsList_inv (j : Json) (ops : List Json) (h : validOpsList j = some ops) :
    ∃ e rest, j = .jarr (e :: rest) ∧ ops = e :: rest ∧ opMemberIsString e = true := by
  unfold validOpsList at h
  cases j with
  | jarr l =>
      cases l with
      | nil => simp at h
      | cons e rest =>
          by_cases he : opMemberIsString e = true
          · refine ⟨e, rest, rfl, ?_, he⟩
            simp [he] at h
            exact h.symm
          · simp [he] at h
  | jnull => simp at h
  | jbool b => simp at h
  | jnum l => simp at h
  | jstr s => simp at h
  | jobj m => simp at h

/-- C6 (corrected): the parser's precedence, first match winning, with
the corrected payloads: a valid json-fenced patch block wins; otherwise
an html fence yields `full` with the trimmed fence contents; otherwise a
response whose trimmed text begins with `<!DOCTYPE` or `<html` yields
`full` with the **trimmed** text (not the raw text); otherwise `null`. -/
theorem c6_parse_precedence (t : Str) :
    (∀ ops, jsonRuleOps t = some ops → parseLlmResponse t = some (.diff ops))
    ∧ (jsonRuleOps t = none → ∀ cap, fenceCapture (str "```html") t = some cap →
        parseLlmResponse t = some (.full (trimL cap)))
    ∧ (jsonRuleOps t = none → fenceCapture (str "```html") t = none →
        startsDocB (trimL t) = true → parseLlmResponse t = some (.full (trimL t)))
    ∧ (jsonRuleOps t = none → fenceCapture (str "```html") t = none →
        startsDocB (trimL t) = false → parseLlmResponse t = none) := by
  refine ⟨?_, ?_, ?_, ?_⟩
  · intro ops h
    rw [parseLlmResponse_eq, h]
  · intro h cap hcap
    rw [parseLlmResponse_eq, h]
    unfold specLaterRules
    simp [hcap]
  · intro h hh hs
    rw [parseLlmResponse_eq, h]
    unfold specLaterRules
    simp [hh, hs]
  · intro h hh hs
    rw [parseLlmResponse_eq, h]
    unfold specLaterRules
    simp [hh, hs]

/-- Witness for `c6_parse_precedence`: rule 2 fires on a concrete
response carrying only an html fence. -/
theorem c6_parse_precedence_witness :
    parseLlmResponse (str "see ```html  <p>a</p> ``` done") = some (.full (str "<p>a</p>")) :=
  (c6_parse_precedence (str "see ```html  <p>a</p> ``` done")).2.1 rfl
    (str "<p>a</p> ") (by decide)

/-- C6 counterexample: for a bare-HTML response with surrounding
whitespace the parser returns the **trimmed** text as payload, not the
raw response text as the claim states. -/
theorem c6_counterexample :
    parseLlmResponse (str "  <html></html>") = some (.full (str "<html></html>"))
    ∧ str "<html></html>" ≠ str "  <html></html>" :=
  ⟨rfl, by decide⟩

/-- C2 (corrected): the parser returns a patch list exactly when the
fenced block decodes to a non-empty array whose **first** element has a
string-typed `op` member — later elements are not inspected and the kind
is not checked against the recognized set; and whenever rule 1 fails for
any reason (no fence, decode failure, validation failure) the parser
falls through to the later rules instead of throwing. -/
theorem c2_patchlist_validation (t : Str) :
    (∀ ops, parseLlmResponse t = some (.diff ops) →
      ∃ cap e rest, fenceCapture (str "```json") t = some cap
        ∧ jsonParseJS (trimL cap) = some (.jarr ops)
        ∧ ops = e :: rest ∧ opMemberIsString e = true)
    ∧ (jsonRuleOps t = none → parseLlmResponse t = specLaterRules t) := by
  constructor
  · intro ops h
    rw [parseLlmResponse_eq] at h
    cases hr : jsonRuleOps t with
    | none =>
        rw [hr] at h
        exact absurd h (specLaterRules_ne_diff t ops)
    | some ops' =>
        rw [hr] at h
        have hops : ops' = ops := by
          injection h with h'
          injection h'
        subst hops
        unfold jsonRuleOps at hr
        cases hf : fenceCapture (str "```json") t with
        | none => simp [hf] at hr
        | some cap =>
            simp only [hf, Option.some_bind] at hr
            cases hp : jsonParseJS (trimL cap) with
            | none => simp [hp] at hr
            | some j =>
                simp only [hp, Option.some_bind] at hr
                obtain ⟨e, rest, hj, hops, he⟩ := validOpsList_inv j ops' hr
                refine ⟨cap, e, rest, rfl, ?_, hops, he⟩
                rw [hp, hj, hops]
  · intro h
    rw [parseLlmResponse_eq, h]

/-- Witness for `c2_patchlist_validation`: both conjuncts applied at
concrete responses. -/
theorem c2_patchlist_validation_witness :
    (∃ cap e rest,
      fenceCapture (str "```json") (str "```json [\x7b\"op\":\"remove\",\"selector\":\"p\"\x7d] ```")
        = some cap
      ∧ jsonParseJS (trimL cap)
        = some (.jarr [Json.jobj [(str "op", Json.jstr (str "remove")),
                                  (str "selector", Json.jstr (str "p"))]])
      ∧ [Json.jobj [(str "op", Json.jstr (str "remove")), (str "selector", Json.jstr (str "p"))]]
          = e :: rest
      ∧ opMemberIsString e = true)
    ∧ parseLlmResponse (str "plain words") = specLaterRules (str "plain words") :=
  ⟨(c2_patchlist_validation _).1 _ rfl, (c2_patchlist_validation (str "plain words")).2 rfl⟩

/-- C2 counterexample: a fenced block whose single operation carries the
unrecognized discriminator `"zzz"` is still returned as a patch list, so
"every element carries a recognized operation discriminator" is not what
the code checks. -/
theorem c2_counterexample :
    parseLlmResponse (str "```json\n[\x7b\"op\":\"zzz\"\x7d]\n```")
      = some (.diff [Json.jobj [(str "op", Json.jstr (str "zzz"))]])
    ∧ "zzz" ∉ recognizedOps :=
  ⟨rfl, by decide⟩

/-- C7 (confirmed): for every document and every response text on which
all three parse rules fail, parsing yields `null`, and
`applyLlmResponse` returns the document unchanged with type `'noop'`
for **every** possible diff engine — so no patch operation is attempted. -/
theorem c7_unparseable_is_noop (engine : Str → List Json → Str) (d t : Str)
    (h1 : jsonRuleOps t = none)
    (h2 : fenceCapture (str "```html") t = none)
    (h3 : startsDocB (trimL t) = false) :
    parseLlmResponse t = none
    ∧ applyLlmResponseWith engine d t = { newHtml := d, rtype := "noop" } := by
  have hp : parseLlmResponse t = none := by
    rw [parseLlmResponse_eq, h1]
    unfold specLaterRules
    simp [h2, h3]
  refine ⟨hp, ?_⟩
  unfold applyLlmResponseWith
  rw [hp]

/-- Witness for `c7_unparseable_is_noop`: a concrete chatty response with
no fences and no document prefix leaves a concrete document untouched,
for an engine that would be observable if it ran. -/
theorem c7_unparseable_is_noop_witness :
    parseLlmResponse (str "Sure, what should I change?") = none
    ∧ applyLlmResponseWith (fun _ _ => str "ENGINE RAN") (str "<p>doc</p>")
        (str "Sure, what should I change?")
      = { newHtml := str "<p>doc</p>", rtype := "noop" } :=
  c7_unparseable_is_noop (fun _ _ => str "ENGINE RAN") (str "<p>doc</p>")
    (str "Sure, what should I change?") rfl (by decide) (by decide)

/-! ## Selection session: click handling (src/canvas/src/lib/selectionBridge.js) -/

/-- JavaScript `Array.prototype.indexOf` on the selection list
(`-1` when absent). -/
def jsIndexOf (l : List Nat) (x : Nat) : Int :=
  match l with
  | [] => -1
  | a :: as =>
    if a = x then 0
    else
      let r := jsIndexOf as x
      if r < 0 then -1 else r + 1

/-- The click handler of the selection session
(src/canvas/src/lib/selectionBridge.js lines 308-339).  Elements are
identified abstractly by `Nat`; `isRoot` is the
`el === document.body || el === document.documentElement` test and
`multi` is `e.shiftKey || e.metaKey || e.ctrlKey`.  Returns the new
`selectedEls` list (the class-list side effects track it exactly). -/
def clickSelect (selectedEls : List Nat) (el : Nat) (isRoot multi : Bool) : List Nat :=
  if isRoot then []
  else
    let s1 := if multi then selectedEls else []
    let idx := jsIndexOf s1 el
    if 0 ≤ idx then s1.eraseIdx idx.toNat else s1 ++ [el]

/-- Helper: `jsIndexOf` is non-negative exactly on members. -/
theorem jsIndexOf_nonneg_iff (l : List Nat) (x : Nat) :
    0 ≤ jsIndexOf l x ↔ x ∈ l := by
  induction l with
  | nil => simp [jsIndexOf]
  | cons a as ih =>
      by_cases hax : a = x
      · simp [jsIndexOf, hax]
      · have : (a = x) = False := by simp [hax]
        by_cases hr : jsIndexOf as x < 0
        · simp only [jsIndexOf, hax, if_false, hr, if_true]
          constructor
          · intro h; omega
          · intro h
            rcases List.mem_cons.mp h with h1 | h2
            · exact absurd h1.symm hax
            · exact absurd ((ih.mpr h2)) (by omega)
        · simp only [jsIndexOf, hax, if_false, hr, if_false]
          push_neg at hr
          constructor
          · intro _
            exact List.mem_cons_of_mem a (ih.mp hr)
          · intro _; omega

/-- Helper: removing at the found index is `List.erase`. -/
theorem eraseIdx_jsIndexOf (l : List Nat) (x : Nat) (h : x ∈ l) :
    l.eraseIdx (jsIndexOf l x).toNat = l.erase x := by
  induction l with
  | nil => cases h
  | cons a as ih =>
      by_cases hax : a = x
      · simp [jsIndexOf, hax, List.erase_cons, List.eraseIdx]
      · have hxas : x ∈ as := by
          rcases List.mem_cons.mp h with h1 | h2
          · exact absurd h1.symm hax
          · exact h2
        have hr : 0 ≤ jsIndexOf as x := (jsIndexOf_nonneg_iff as x).mpr hxas
        have hlt : ¬ jsIndexOf as x < 0 := by omega
        have htn : (jsIndexOf as x + 1).toNat = (jsIndexOf as x).toNat + 1 := by omega
        simp only [jsIndexOf, hax, if_false, hlt, if_false, htn, List.eraseIdx,
          List.erase_cons, ih hxas]
        simp [hax]

/-- C5 (corrected): a click on the root/body clears the selection; a
plain (unmodified) click on any other element always replaces the whole
selection with exactly that element — including when it already was the
sole selection, which is therefore re-selected, **not** toggled off; a
modified click toggles membership (removing the first occurrence when
present, appending when absent) without touching the rest. -/
theorem c5_click_behavior (sel : List Nat) (el : Nat) (multi : Bool) :
    clickSelect sel el true multi = []
    ∧ clickSelect sel el false false = [el]
    ∧ (el ∈ sel → clickSelect sel el false true = sel.erase el)
    ∧ (el ∉ sel → clickSelect sel el false true = sel ++ [el]) := by
  refine ⟨rfl, rfl, ?_, ?_⟩
  · intro h
    have h0 : 0 ≤ jsIndexOf sel el := (jsIndexOf_nonneg_iff sel el).mpr h
    unfold clickSelect
    simp only [if_false, if_true, reduceIte]
    rw [if_pos h0, eraseIdx_jsIndexOf sel el h]
    simp
  · intro h
    have h0 : ¬ 0 ≤ jsIndexOf sel el := fun hc => h ((jsIndexOf_nonneg_iff sel el).mp hc)
    unfold clickSelect
    simp only [if_false, if_true, reduceIte]
    rw [if_neg h0]
    simp

/-- Witness for `c5_click_behavior`: toggling a concrete member off a
concrete multi-selection via a modified click. -/
theorem c5_click_behavior_witness :
    clickSelect [3, 7, 9] 7 false true = [3, 9] := by
  have h := (c5_click_behavior [3, 7, 9] 7 true).2.2.1 (by decide)
  simpa using h

/-- C5 counterexample: a plain click on the element that is already the
sole selection leaves it selected (`[5]`), not the empty selection the
claim requires. -/
theorem c5_counterexample :
    clickSelect [5] 5 false false = [5] ∧ clickSelect [5] 5 false false ≠ [] := by
  exact ⟨rfl, by decide⟩

/-! ## Bridge injection (src/canvas/src/lib/selectionBridge.js lines 365-374) -/

/-- The marker substring guarded against
(`html.includes('id="__canvas_bridge__"')`). -/
def bridgeMarkerS : Str := str "id=\x22__canvas_bridge__\x22"

/-- Body of the bridge script between the opening and closing script
tags (the template literal of `getSelectionBridgeScript`,
src/canvas/src/lib/selectionBridge.js lines 163-362, verbatim). -/
def bridgeScriptBody : Str :=
  str "(function()\x7b\n  \x27use strict\x27;\n\n  var HOVER_CLASS = \x27__ch__\x27;\n  var SEL_CLASS   = \x27__cs__\x27;\n  var BRIDGE_CLASSES = [HOVER_CLASS, SEL_CLASS];\n\n  var hoveredEl   = null;\n  var selectedEls = [];\n\n  /* ── Style injection ──────────────────────────────────────────────── */\n  var style = document.createElement(\x27style\x27);\n  style.textContent =\n    \x27.__ch__ \x7b outline: 2px solid #3b82f6 !important; outline-offset: 2px; cursor: crosshair !important; \x7d\x27 +\n    \x27.__cs__ \x7b outline: 2px solid #ef4444 !important; outline-offset: 2px; background-color: rgba(239,68,68,0.04) !important; \x7d\x27;\n  (document.head || document.documentElement).appendChild(style);\n\n  /* ── Unique stable selector ───────────────────────────────────────── */\n  function getSelector(el) \x7b\n    if (!el || el.nodeType !== 1) return \x27body\x27;\n    if (el === document.body) return \x27body\x27;\n    if (el === document.documentElement) return \x27html\x27;\n\n    // Walk up and build parts\n    var parts = [];\n    var cur = el;\n\n    while (cur && cur !== document.body && cur !== document.documentElement) \x7b\n      var part;\n      if (cur.id) \x7b\n        // ID is unique — anchor here and stop\n        part = \x27#\x27 + CSS.escape(cur.id);\n        parts.unshift(part);\n        return parts.join(\x27 > \x27);\n      \x7d\n\n      // Use tag + nth-of-type for precision\n      var tag = cur.tagName.toLowerCase();\n      var parent = cur.parentElement;\n      if (parent) \x7b\n        var siblings = Array.from(parent.children).filter(function(c) \x7b\n          return c.tagName === cur.tagName;\n        \x7d);\n        if (siblings.length > 1) \x7b\n          var idx = siblings.indexOf(cur) + 1;\n          part = tag + \x27:nth-of-type(\x27 + idx + \x27)\x27;\n        \x7d else \x7b\n          part = tag;\n        \x7d\n      \x7d else \x7b\n        part = tag;\n      \x7d\n\n      parts.unshift(part);\n      cur = cur.parentElement;\n    \x7d\n\n    // Prepend body for absolute specificity\n    parts.unshift(\x27body\x27);\n    return parts.join(\x27 > \x27);\n  \x7d\n\n  /* ── XPath ────────────────────────────────────────────────────────── */\n  function getXPath(el) \x7b\n    if (!el || el.nodeType !== 1) return \x27\x27;\n    var parts = [];\n    var cur = el;\n    while (cur && cur.nodeType === 1 && cur !== document.documentElement) \x7b\n      var tag = cur.tagName.toLowerCase();\n      var siblings = cur.parentNode\n        ? Array.from(cur.parentNode.children).filter(function(c) \x7b return c.tagName === cur.tagName; \x7d)\n        : [];\n      var idx = siblings.indexOf(cur) + 1;\n      parts.unshift(tag + (siblings.length > 1 ? \x27[\x27 + idx + \x27]\x27 : \x27\x27));\n      cur = cur.parentNode;\n    \x7d\n    return \x27//\x27 + parts.join(\x27/\x27);\n  \x7d\n\n  /* ── Key computed styles ──────────────────────────────────────────── */\n  function getKeyStyles(el) \x7b\n    var cs = window.getComputedStyle(el);\n    return \x7b\n      color:           cs.color,\n      backgroundColor: cs.backgroundColor,\n      fontSize:        cs.fontSize,\n      fontFamily:      cs.fontFamily,\n      fontWeight:      cs.fontWeight,\n      lineHeight:      cs.lineHeight,\n      padding:         cs.padding,\n      margin:          cs.margin,\n      borderRadius:    cs.borderRadius,\n      border:          cs.border,\n      display:         cs.display,\n      width:           cs.width,\n      height:          cs.height,\n      textAlign:       cs.textAlign,\n      opacity:         cs.opacity\n    \x7d;\n  \x7d\n\n  /* ── Clean outerHTML — strip bridge classes before capturing ──────── */\n  function cleanOuterHTML(el) \x7b\n    // Clone, strip bridge classes, return outerHTML\n    var clone = el.cloneNode(true);\n    clone.classList.remove(HOVER_CLASS, SEL_CLASS);\n    // Also clean descendants\n    clone.querySelectorAll(\x27.\x27 + HOVER_CLASS + \x27, .\x27 + SEL_CLASS).forEach(function(d) \x7b\n      d.classList.remove(HOVER_CLASS, SEL_CLASS);\n    \x7d);\n    // Remove empty class attributes\n    if (clone.getAttribute(\x27class\x27) === \x27\x27) clone.removeAttribute(\x27class\x27);\n    return clone.outerHTML;\n  \x7d\n\n  /* ── Broadcast current selection to parent ────────────────────────── */\n  function broadcast() \x7b\n    var payload = selectedEls.map(function(s) \x7b\n      return \x7b\n        selector:       getSelector(s),\n        xpath:          getXPath(s),\n        outerHTML:      cleanOuterHTML(s),\n        tagName:        s.tagName.toLowerCase(),\n        computedStyles: getKeyStyles(s)\n      \x7d;\n    \x7d);\n    window.parent.postMessage(\x7b type: \x27canvas:selection\x27, payload: payload \x7d, \x27*\x27);\n  \x7d\n\n  /* ── Hover ────────────────────────────────────────────────────────── */\n  document.addEventListener(\x27mouseover\x27, function(e) \x7b\n    var el = e.target;\n    if (el === document.body || el === document.documentElement) return;\n    if (hoveredEl && hoveredEl !== el) hoveredEl.classList.remove(HOVER_CLASS);\n    hoveredEl = el;\n    el.classList.add(HOVER_CLASS);\n  \x7d, true);\n\n  document.addEventListener(\x27mouseout\x27, function(e) \x7b\n    if (hoveredEl) hoveredEl.classList.remove(HOVER_CLASS);\n    hoveredEl = null;\n  \x7d, true);\n\n  /* ── Click-select ─────────────────────────────────────────────────── */\n  document.addEventListener(\x27click\x27, function(e) \x7b\n    e.preventDefault();\n    e.stopPropagation();\n\n    var el = e.target;\n    if (el === document.body || el === document.documentElement) \x7b\n      // Click on blank area — clear selection\n      selectedEls.forEach(function(s) \x7b s.classList.remove(SEL_CLASS); \x7d);\n      selectedEls = [];\n      broadcast();\n      return;\n    \x7d\n\n    var isMulti = e.shiftKey || e.metaKey || e.ctrlKey;\n\n    if (!isMulti) \x7b\n      selectedEls.forEach(function(s) \x7b s.classList.remove(SEL_CLASS); \x7d);\n      selectedEls = [];\n    \x7d\n\n    var idx = selectedEls.indexOf(el);\n    if (idx > -1) \x7b\n      // Deselect\n      el.classList.remove(SEL_CLASS);\n      selectedEls.splice(idx, 1);\n    \x7d else \x7b\n      el.classList.add(SEL_CLASS);\n      selectedEls.push(el);\n    \x7d\n\n    broadcast();\n  \x7d, true);\n\n  /* ── Messages from parent ─────────────────────────────────────────── */\n  window.addEventListener(\x27message\x27, function(e) \x7b\n    if (!e.data) return;\n    if (e.data.type === \x27canvas:clearSelection\x27) \x7b\n      selectedEls.forEach(function(s) \x7b s.classList.remove(SEL_CLASS); \x7d);\n      selectedEls = [];\n      // Don\x27t broadcast — parent already knows\n    \x7d\n  \x7d);\n\n  /* ── Block navigation ─────────────────────────────────────────────── */\n  document.addEventListener(\x27submit\x27,   function(e) \x7b e.preventDefault(); \x7d, true);\n  document.addEventListener(\x27auxclick\x27, function(e) \x7b e.preventDefault(); \x7d, true);\n  // Block Ctrl/Cmd+R, Ctrl/Cmd+L (reload / address bar)\n  document.addEventListener(\x27keydown\x27, function(e) \x7b\n    if ((e.metaKey || e.ctrlKey) && (e.key === \x27r\x27 || e.key === \x27l\x27 || e.key === \x27w\x27)) \x7b\n      e.preventDefault();\n    \x7d\n  \x7d, true);\n\n\x7d)();"

/-- `getSelectionBridgeScript`: the full injected script string; its
opening tag carries the marker. -/
def getSelectionBridgeScript : Str :=
  str "<script " ++ bridgeMarkerS ++ (str ">\n" ++ bridgeScriptBody ++ str "\n</script>")

/-- JavaScript `String.prototype.replace` with a plain-string pattern:
replace the first occurrence only; the replacement here contains no `$`
patterns, so it is inserted verbatim. -/
def replaceFirst (pat repl : Str) : Str → Str
  | [] => if startsWithL pat [] = true then repl else []
  | c :: rest =>
    if startsWithL pat (c :: rest) = true then repl ++ (c :: rest).drop pat.length
    else c :: replaceFirst pat repl rest

/-- `injectBridge` (src/canvas/src/lib/selectionBridge.js lines
365-374): skip when the marker is already present, else splice the
script before `</body>` when there is one, else append it. -/
def injectBridge (html : Str) : Str :=
  if hasSub html bridgeMarkerS = true then html
  else if hasSub html (str "</body>") = true then
    replaceFirst (str "</body>") (getSelectionBridgeScript ++ str "\n</body>") html
  else html ++ str "\n" ++ getSelectionBridgeScript

theorem startsWithL_append_self (pat rest : Str) : startsWithL pat (pat ++ rest) = true := by
  induction pat with
  | nil => rfl
  | cons c p ih => simp [startsWithL, ih]

theorem startsWithL_mono (pat : Str) : ∀ s y, startsWithL pat s = true →
    startsWithL pat (s ++ y) = true := by
  induction pat with
  | nil => intro s y _; rfl
  | cons c p ih =>
      intro s y h
      cases s with
      | nil => simp [startsWithL] at h
      | cons b s2 =>
          simp only [startsWithL, Bool.and_eq_true] at h
          simp [startsWithL, h.1, ih s2 y h.2]

theorem hasSub_of_startsWith (pat s : Str) (h : startsWithL pat s = true) :
    hasSub s pat = true := by
  cases s with
  | nil => simp [hasSub, findSubIdx, h]
  | cons c rest => simp [hasSub, findSubIdx, h]

theorem hasSub_nil_pat (s : Str) : hasSub s ([] : Str) = true := by
  cases s <;> simp [hasSub, findSubIdx, startsWithL]

theorem isSome_mapSucc (o : Option Nat) : (o.map (· + 1)).isSome = o.isSome := by
  cases o <;> rfl

theorem findSubIdx_cons (pat : Str) (c : Char) (rest : Str) :
    findSubIdx pat (c :: rest) =
      if startsWithL pat (c :: rest) then some 0
      else (findSubIdx pat rest).map (· + 1) := rfl

theorem findSubIdx_nil (pat : Str) :
    findSubIdx pat [] = if startsWithL pat [] then some 0 else none := rfl

theorem hasSub_append_right (x : Str) (s pat : Str) (h : hasSub s pat = true) :
    hasSub (x ++ s) pat = true := by
  induction x with
  | nil => exact h
  | cons c x2 ih =>
      show hasSub (c :: (x2 ++ s)) pat = true
      unfold hasSub
      rw [findSubIdx_cons]
      by_cases hs : startsWithL pat (c :: (x2 ++ s)) = true
      · rw [if_pos hs]
        rfl
      · rw [if_neg hs, isSome_mapSucc]
        exact ih

theorem hasSub_append_left (pat : Str) : ∀ s y, hasSub s pat = true →
    hasSub (s ++ y) pat = true := by
  intro s
  induction s with
  | nil =>
      intro y h
      unfold hasSub at h
      rw [findSubIdx_nil] at h
      cases pat with
      | nil => exact hasSub_nil_pat y
      | cons c p => simp [startsWithL] at h
  | cons c s2 ih =>
      intro y h
      by_cases hs : startsWithL pat (c :: s2) = true
      · exact hasSub_of_startsWith pat _ (startsWithL_mono pat (c :: s2) y hs)
      · have hrest : hasSub s2 pat = true := by
          unfold hasSub at h
          rw [findSubIdx_cons, if_neg hs, isSome_mapSucc] at h
          exact h
        have hy := ih y hrest
        show hasSub (c :: (s2 ++ y)) pat = true
        unfold hasSub
        rw [findSubIdx_cons]
        by_cases hs2 : startsWithL pat (c :: (s2 ++ y)) = true
        · rw [if_pos hs2]
          rfl
        · rw [if_neg hs2, isSome_mapSucc]
          exact hy

theorem hasSub_middle (x pat y : Str) : hasSub (x ++ (pat ++ y)) pat = true :=
  hasSub_append_right x (pat ++ y) pat
    (hasSub_of_startsWith pat (pat ++ y) (startsWithL_append_self pat y))

theorem startsWith_drop_eq (pat : Str) : ∀ s, startsWithL pat s = true →
    s = pat ++ s.drop pat.length := by
  induction pat with
  | nil => intro s _; simp
  | cons c p ih =>
      intro s h
      cases s with
      | nil => simp [startsWithL] at h
      | cons b s2 =>
          simp only [startsWithL, Bool.and_eq_true] at h
          have hb : c = b := by simpa using h.1
          subst hb
          simpa [List.length] using congrArg (c :: ·) (ih s2 h.2)

theorem replaceFirst_decomp (pat repl : Str) : ∀ s, hasSub s pat = true →
    ∃ a b, s = a ++ (pat ++ b) ∧ replaceFirst pat repl s = a ++ (repl ++ b) := by
  intro s
  induction s with
  | nil =>
      intro h
      unfold hasSub at h
      rw [findSubIdx_nil] at h
      cases pat with
      | nil => exact ⟨[], [], rfl, by simp [replaceFirst, startsWithL]⟩
      | cons c p => simp [startsWithL] at h
  | cons c s2 ih =>
      intro h
      by_cases hs : startsWithL pat (c :: s2) = true
      · refine ⟨[], (c :: s2).drop pat.length, ?_, ?_⟩
        · simpa using startsWith_drop_eq pat (c :: s2) hs
        · simp [replaceFirst, hs]
      · have hrest : hasSub s2 pat = true := by
          simp only [hasSub, findSubIdx, hs, if_false, isSome_mapSucc] at h
          simpa [hasSub] using h
        obtain ⟨a, b, hsp, hrp⟩ := ih hrest
        refine ⟨c :: a, b, by simp [hsp], ?_⟩
        simp [replaceFirst, hs, hrp]

/-- Helper: the injected script contains the marker. -/
theorem marker_in_script : hasSub getSelectionBridgeScript bridgeMarkerS = true := by
  unfold getSelectionBridgeScript
  exact hasSub_middle (str "<script ") bridgeMarkerS
    (str ">\n" ++ bridgeScriptBody ++ str "\n</script>")

/-- Helper: whatever branch `injectBridge` takes, its output contains
the marker. -/
theorem injectBridge_has_marker (h : Str) :
    hasSub (injectBridge h) bridgeMarkerS = true := by
  unfold injectBridge
  by_cases h1 : hasSub h bridgeMarkerS = true
  · rw [if_pos h1]; exact h1
  · rw [if_neg h1]
    by_cases h2 : hasSub h (str "</body>") = true
    · rw [if_pos h2]
      obtain ⟨a, b, _, hrp⟩ :=
        replaceFirst_decomp (str "</body>")
          (getSelectionBridgeScript ++ str "\n</body>") h h2
      rw [hrp]
      refine hasSub_append_right a _ _ ?_
      refine hasSub_append_left bridgeMarkerS _ b ?_
      exact hasSub_append_left bridgeMarkerS getSelectionBridgeScript
        (str "\n</body>") marker_in_script
    · rw [if_neg h2]
      have : h ++ str "\n" ++ getSelectionBridgeScript
          = h ++ (str "\n" ++ getSelectionBridgeScript) := by
        simp [List.append_assoc]
      rw [this]
      refine hasSub_append_right h _ _ ?_
      exact hasSub_append_right (str "\n") _ _ marker_in_script

/-- C10 (confirmed): `injectBridge` is idempotent at the public
interface: an input already containing the bridge marker is returned
unchanged, and for every HTML string the second injection is the
identity, so the bridge script is never injected twice. -/
theorem c10_injectBridge_idempotent (h : Str) :
    (hasSub h bridgeMarkerS = true → injectBridge h = h)
    ∧ injectBridge (injectBridge h) = injectBridge h := by
  have guard : ∀ s, hasSub s bridgeMarkerS = true → injectBridge s = s := by
    intro s hs
    unfold injectBridge
    rw [if_pos hs]
  exact ⟨guard h, guard _ (injectBridge_has_marker h)⟩

/-- Witness for `c10_injectBridge_idempotent`: a concrete document that
already carries the marker passes through unchanged. -/
theorem c10_injectBridge_idempotent_witness :
    injectBridge (str "<body><script id=\x22__canvas_bridge__\x22></script></body>")
      = str "<body><script id=\x22__canvas_bridge__\x22></script></body>" :=
  (c10_injectBridge_idempotent _).1 (by decide)

/-! ## Streaming orchestration: the cancellation path of `handleSend`
(src/canvas/src/components/ChatPanel.jsx lines 57-153)

JavaScript `let`/`const` declarations are block-scoped.  The identifier
lists below record, from the source, which bindings are visible where;
the evaluation model consults them before reading an identifier, exactly
as the engine does (reading an undeclared identifier throws a
`ReferenceError`). -/

/-- Bindings declared in the `try` block of `handleSend`
(line 106: `let accumulated = '';`).  They are scoped to the `try`
block only. -/
def handleSendTryScopeIds : List String := ["accumulated"]

/-- Bindings visible inside the `catch` block of `handleSend`: the
catch parameter (`err`, line 130), the catch-local `freshHtml`
(line 135), and the function-scope bindings of lines 58-103 together
with the surrounding component scope.  The `try`-scoped `accumulated`
is **not** among them. -/
def handleSendCatchScopeIds : List String :=
  ["err", "freshHtml", "text", "currentChatHistory", "pid", "historyForApi",
   "selSnapshot", "currentHtml", "messages", "input", "page", "selectedElements",
   "llmConfig", "streamingPageId", "abortRef", "inputRef", "pushMessage",
   "updateLastAssistantMessage", "setStreamingPage", "updatePageHtml",
   "clearSelection"]

/-- Reading an identifier: `ok` when it is in scope, otherwise the
thrown `ReferenceError`. -/
def readIdent (scope : List String) (x : String) : Except String Unit :=
  if x ∈ scope then .ok () else .error ("ReferenceError: " ++ x ++ " is not defined")

/-- The `AbortError` branch of `handleSend`'s `catch`
(src/canvas/src/components/ChatPanel.jsx lines 133-145): re-read the
page HTML, then `if (accumulated) { ... applyLlmResponse ... }`.
Before anything else can happen the branch must evaluate the identifier
`accumulated` in the catch scope.  Returns the document update the
branch performs (`some newHtml`) or `none` when it performs no update;
an `error` models an exception escaping `handleSend`. -/
def abortBranch (engine : Str → List Json → Str) (freshHtml accumulated : Str) :
    Except String (Option Str) := do
  let _ ← readIdent handleSendCatchScopeIds "accumulated"
  if accumulated = [] then
    return none
  else
    let r := applyLlmResponseWith engine freshHtml accumulated
    if r.rtype ≠ "noop" then return (some r.newHtml) else return none

/-- C4 (code bug): the cancellation path can never run the
completion-style post-processing.  `accumulated` is declared inside the
`try` block and is therefore out of scope in the `catch` block, so the
`AbortError` branch throws a `ReferenceError` before parsing or applying
anything, for every engine, every re-read document and every
accumulated text — in particular the document is never updated, contrary
to the claim (and to the source's own comment on line 134). -/
theorem c4_abort_branch_throws (engine : Str → List Json → Str)
    (freshHtml accumulated : Str) :
    abortBranch engine freshHtml accumulated
        = .error "ReferenceError: accumulated is not defined"
    ∧ "accumulated" ∈ handleSendTryScopeIds
    ∧ "accumulated" ∉ handleSendCatchScopeIds := by
  refine ⟨?_, by decide, by decide⟩
  unfold abortBranch readIdent
  have h : ("accumulated" ∈ handleSendCatchScopeIds) = False := by
    simp [handleSendCatchScopeIds]
  rw [if_neg (by simp [handleSendCatchScopeIds])]
  rfl

/-! ## DOM model

`applyDiff` parses the HTML string with `DOMParser`, mutates the tree and
reserializes.  The tree is modelled directly: `DomDoc` is the document's
root element (`doc.documentElement`), or `none` after the root has been
detached.  `DOMParser.parseFromString('...','text/html')` never produces
a rootless document, so engine runs start from `some root`.  Elements
carry their tag, attribute list and inline style (the
`CSSStyleDeclaration` view of the `style` attribute as a key-value list);
`el.id` and `el.classList` are derived from the attribute list as in the
DOM. -/

/-- Data of one element node. -/
structure ElemData where
  tag : String
  attrs : List (String × String)
  style : List (String × String)
deriving DecidableEq

/-- DOM nodes: elements with child nodes, and text nodes. -/
inductive Node where
  | elem (data : ElemData) (children : List Node)
  | text (s : String)

/-- Paths address nodes by child indices from the document root. -/
abbrev Path := List Nat

/-- The document: its root element, if still attached. -/
abbrev DomDoc := Option Node

/-- Node lookup along a path. -/
def nodeAt : Node → Path → Option Node
  | n, [] => some n
  | .text _, _ :: _ => none
  | .elem _ cs, i :: p =>
    match cs[i]? with
    | some c => nodeAt c p
    | none => none

/-- Element data at a path (`none` for text nodes and invalid paths). -/
def elemDataAt (n : Node) (p : Path) : Option ElemData :=
  match nodeAt n p with
  | some (.elem d _) => some d
  | _ => none

/-- Document-level node lookup. -/
def docNodeAt (d : DomDoc) (p : Path) : Option Node :=
  match d with
  | some r => nodeAt r p
  | none => none

/-- Document-level element data lookup. -/
def docElemDataAt (d : DomDoc) (p : Path) : Option ElemData :=
  match d with
  | some r => elemDataAt r p
  | none => none

/-- Replace the `i`-th entry of a list by `f` of it. -/
def modifyNth {α : Type} (f : α → α) : List α → Nat → List α
  | [], _ => []
  | x :: xs, 0 => f x :: xs
  | x :: xs, n + 1 => x :: modifyNth f xs n

/-- Rewrite the node at a path with `g` (identity off the path). -/
def updateAt (g : Node → Node) : Node → Path → Node
  | n, [] => g n
  | .text s, _ :: _ => .text s
  | .elem d cs, i :: p => .elem d (modifyNth (fun c => updateAt g c p) cs i)

/-- Transform only the element data at the target node. -/
def mapData (f : ElemData → ElemData) : Node → Node
  | .elem d cs => .elem (f d) cs
  | .text s => .text s

/-- Modify the element data at a path of the document. -/
def docModifyElem (d : DomDoc) (p : Path) (f : ElemData → ElemData) : DomDoc :=
  match d with
  | some r => some (updateAt (mapData f) r p)
  | none => none

/-- Modify the child list of the element at a path. -/
def docSplice (d : DomDoc) (p : Path) (f : List Node → List Node) : DomDoc :=
  match d with
  | some r => some (updateAt (fun n => match n with
      | .elem e cs => .elem e (f cs)
      | t => t) r p)
  | none => none

/-! ### Attributes, classes, inline style -/

/-- Set a key in an association list (replace in place, else append) —
the behaviour of both `setAttribute` and `style[prop] = v`. -/
def assocSet (l : List (String × String)) (k v : String) : List (String × String) :=
  if l.any (fun kv => kv.1 = k) then
    l.map (fun kv => if kv.1 = k then (k, v) else kv)
  else l ++ [(k, v)]

/-- First value for a key. -/
def assocGet (l : List (String × String)) (k : String) : Option String :=
  (l.find? (fun kv => kv.1 = k)).map (·.2)

/-- `getAttribute`. -/
def getAttr (e : ElemData) (k : String) : Option String := assocGet e.attrs k

/-- `setAttribute`. -/
def setAttrD (e : ElemData) (k v : String) : ElemData :=
  { e with attrs := assocSet e.attrs k v }

/-- `el.id` — the empty string when the attribute is absent. -/
def idOf (e : ElemData) : String := (getAttr e "id").getD ""

/-- Split on whitespace runs (for the class attribute's token list). -/
def wordsAux : Str → Str → List Str
  | [], cur => if cur = [] then [] else [cur.reverse]
  | c :: rest, cur =>
    if isWsChar c then
      if cur = [] then wordsAux rest [] else cur.reverse :: wordsAux rest []
    else wordsAux rest (c :: cur)

/-- `el.classList` as a token list. -/
def classTokens (e : ElemData) : List Str :=
  wordsAux ((getAttr e "class").getD "").data []

/-- `classList.add(c)`: no-op when the token is present, else append. -/
def addClassD (e : ElemData) (c : String) : ElemData :=
  if (classTokens e).contains c.data then e
  else
    let old := (getAttr e "class").getD ""
    setAttrD e "class" (if old = "" then c else old ++ " " ++ c)

/-- `classList.remove(c)`: drop the token and reserialize. -/
def removeClassD (e : ElemData) (c : String) : ElemData :=
  setAttrD e "class"
    (String.intercalate " " (((classTokens e).filter (fun t => t ≠ c.data)).map String.mk))

/-- `style[prop] = value`. -/
def setStyleD (e : ElemData) (p v : String) : ElemData :=
  { e with style := assocSet e.style p v }

/-- Read an inline style property. -/
def styleOf (e : ElemData) (p : String) : Option String := assocGet e.style p

/-! ### Text content and element children -/

mutual

/-- `node.textContent` (concatenated descendant text). -/
def textContentN : Node → String
  | .text s => s
  | .elem _ cs => textContentC cs

/-- Text content of a node list. -/
def textContentC : List Node → String
  | [] => ""
  | c :: cs => textContentN c ++ textContentC cs

end

/-- The `textContent` setter: replace all children by one text node. -/
def setTextNode (s : String) : Node → Node
  | .elem d _ => .elem d [.text s]
  | .text _ => .text s

/-- Set the text content of the node at a path. -/
def docSetText (d : DomDoc) (p : Path) (s : String) : DomDoc :=
  match d with
  | some r => some (updateAt (setTextNode s) r p)
  | none => none

/-- Text content at a path (empty off-tree). -/
def textAt (d : DomDoc) (p : Path) : String :=
  match docNodeAt d p with
  | some n => textContentN n
  | none => ""

/-- Whether a node is an element. -/
def isElemNode : Node → Bool
  | .elem _ _ => true
  | .text _ => false

/-- `el.children` (element children only). -/
def elemChildren (cs : List Node) : List Node := cs.filter isElemNode

/-- Replace the first direct text-node child's content, as the
`replaceText` operation does when element children exist. -/
def replaceFirstTextChild (cs : List Node) (t : String) : List Node :=
  match cs with
  | [] => []
  | .text _ :: rest => .text t :: rest
  | c :: rest => c :: replaceFirstTextChild rest t

/-! ### Document-order element enumeration -/

mutual

/-- All element paths of a node, in pre-order (document order). -/
def allPathsN : Node → List Path
  | .text _ => []
  | .elem _ cs => [] :: allPathsC cs 0

/-- Element paths below a child list, children indexed from `i`. -/
def allPathsC : List Node → Nat → List Path
  | [], _ => []
  | c :: cs, i => (allPathsN c).map (i :: ·) ++ allPathsC cs (i + 1)

end

/-- All element paths of the document, in document order. -/
def docPaths : DomDoc → List Path
  | some r => allPathsN r
  | none => []

/-! ### Selectors

Selectors cross the string boundary in the source (`getSelector` builds a
string, `querySelector` parses it back).  They are modelled as the AST
the code's own productions generate — chains of `#id` / `tag` /
`tag:nth-of-type(k)` / `.class` parts joined by the child combinator —
plus `invalid s`, standing for any syntactically invalid selector text
`s`, on which `querySelector` throws.  `CSS.escape` and the reverse
selector parse are the identity of this AST. -/

/-- One selector part. -/
inductive SPart where
  | tagName (t : String)
  | tagNth (t : String) (k : Nat)
  | idSel (i : String)
  | clsSel (c : String)
deriving DecidableEq

/-- A selector: a child-combinator chain, or invalid text. -/
inductive Sel where
  | chain (parts : List SPart)
  | invalid (srcText : String)
deriving DecidableEq

/-- The selector's string form (`parts.join(' > ')`). -/
def sPartText : SPart → String
  | .tagName t => t
  | .tagNth t k => t ++ ":nth-of-type(" ++ toString k ++ ")"
  | .idSel i => "#" ++ i
  | .clsSel c => "." ++ c

/-- Selector text, as the source manipulates it (`op.selector`). -/
def selText : Sel → String
  | .chain parts => String.intercalate " > " (parts.map sPartText)
  | .invalid srcText => srcText

/-- Split a path into its parent path and final index. -/
def splitLast : Path → Option (Path × Nat)
  | [] => none
  | [i] => some ([], i)
  | i :: rest => (splitLast rest).map (fun q => (i :: q.1, q.2))

/-- Count element children with a tag among the first `i` entries. -/
def countTagBefore (cs : List Node) (t : String) (i : Nat) : Nat :=
  ((cs.take i).filter (fun c => match c with
    | .elem d _ => d.tag = t
    | .text _ => false)).length

/-- Count all element children with a tag. -/
def countTagAll (cs : List Node) (t : String) : Nat :=
  (cs.filter (fun c => match c with
    | .elem d _ => d.tag = t
    | .text _ => false)).length

/-- 1-based `nth-of-type` rank of the element at `p` among its parent's
same-tag element children (the root counts as rank 1). -/
def nthOfType (d : DomDoc) (p : Path) : Option Nat :=
  match docNodeAt d p with
  | some (.elem e _) =>
    match splitLast p with
    | none => some 1
    | some (pp, i) =>
      match docNodeAt d pp with
      | some (.elem _ cs) => some (countTagBefore cs e.tag i + 1)
      | _ => none
  | _ => none

/-- Whether a selector part matches the element at `p`. -/
def partMatches (d : DomDoc) (p : Path) (sp : SPart) : Bool :=
  match docElemDataAt d p with
  | none => false
  | some e =>
    match sp with
    | .tagName t => e.tag = t
    | .tagNth t k => e.tag = t && nthOfType d p = some k
    | .idSel i => idOf e = i
    | .clsSel c => (classTokens e).contains c.data

/-- Chain matching with the rightmost part at `p`, ascending through
immediate parents (`>` combinator); the parts are given reversed. -/
def selMatchesRev (d : DomDoc) : Path → List SPart → Bool
  | _, [] => true
  | p, sp :: rest =>
    partMatches d p sp &&
      (rest.isEmpty ||
        (match splitLast p with
         | some (pp, _) => selMatchesRev d pp rest
         | none => false))

/-- Whether a selector matches the element at `p`.  Invalid selectors
never reach matching (`querySelector` throws first). -/
def selMatches (d : DomDoc) (p : Path) : Sel → Bool
  | .chain [] => false
  | .chain parts => selMatchesRev d p parts.reverse
  | .invalid _ => false

/-- `querySelectorAll` semantics over the AST: document-order matches,
or the thrown `SyntaxError` for invalid selector text. -/
def resolveAll (d : DomDoc) : Sel → Except Unit (List Path)
  | .invalid _ => .error ()
  | .chain parts => .ok ((docPaths d).filter (fun p => selMatches d p (.chain parts)))

/-- `_sel` (src/canvas/src/lib/differ.js lines 64-70): `querySelector`
with the `try`/`catch` that turns invalid selectors into `null`. -/
def selFirst (d : DomDoc) (s : Sel) : Option Path :=
  match resolveAll d s with
  | .error _ => none
  | .ok l => l.head?

/-- `_selAll` (src/canvas/src/lib/differ.js lines 72-78):
`querySelectorAll` with the `try`/`catch` that turns invalid selectors
into the empty list. -/
def selAllPaths (d : DomDoc) (s : Sel) : List Path :=
  match resolveAll d s with
  | .error _ => []
  | .ok l => l

/-! ## Patch operations and the engine (src/canvas/src/lib/differ.js) -/

/-- One patch operation object (the wire shape of §6): a string
discriminator `op` plus kind-specific fields.  The `class` field is
spelled `cls` (`class` is reserved in Lean); `html` payloads are carried
as already-parsed node forests (the markup-parsing boundary); absent
fields behave as their defaults, which the operations never read unless
the discriminator selects them. -/
structure Op where
  op : String
  selector : Sel := .invalid ""
  html : List Node := []
  property : String := ""
  value : String := ""
  attr : String := ""
  text : String := ""
  cls : String := ""
  css : String := ""

/-- First element child index with a tag. -/
def findTagIdxAux (t : String) : List Node → Nat → Option Nat
  | [], _ => none
  | .elem e _ :: rest, i => if e.tag = t then some i else findTagIdxAux t rest (i + 1)
  | .text _ :: rest, i => findTagIdxAux t rest (i + 1)

/-- `doc.head`: the first `head` element child of the root. -/
def headPath (d : DomDoc) : Option Path :=
  match d with
  | some (.elem _ cs) => (findTagIdxAux "head" cs 0).map (fun i => [i])
  | _ => none

/-- `document.body`: the first `body` element child of the root. -/
def bodyPath (d : DomDoc) : Option Path :=
  match d with
  | some (.elem _ cs) => (findTagIdxAux "body" cs 0).map (fun i => [i])
  | _ => none

/-- Paths of all `style` elements, in document order
(`doc.querySelectorAll('style')`). -/
def stylePaths (d : DomDoc) : List Path :=
  (docPaths d).filter (fun p =>
    match docElemDataAt d p with
    | some e => e.tag = "style"
    | none => false)

/-- `_getOrCreateStyle` (src/canvas/src/lib/differ.js lines 196-203):
prefer the last style element; else create one and append it to
`doc.head || doc.documentElement`.  Returns the (possibly new) document
and the style element's path; the error is the `TypeError` of appending
when both are `null`. -/
def getOrCreateStyle (d : DomDoc) : Except String (DomDoc × Path) :=
  match (stylePaths d).getLast? with
  | some sp => .ok (d, sp)
  | none =>
    let styleN : Node := .elem { tag := "style", attrs := [], style := [] } []
    let tp : Path := (headPath d).getD []
    match docNodeAt d tp with
    | some (.elem _ cs) =>
      .ok (docSplice d tp (fun cs0 => cs0 ++ [styleN]), tp ++ [cs.length])
    | _ => .error "TypeError: cannot appendChild on null"

/-! ### The `replaceCSS` text rewrite

`new RegExp(escapeRegex(op.selector) + '\\s*\\{[^}]*\\}', 'g')` — the
selector text taken literally, then optional whitespace, a brace-
delimited body with no closing brace inside.  `escapeRegex` makes the
selector a literal, so the pattern is implemented as a direct scan.
Note the pattern is **unanchored**: it also fires mid-rule, e.g. inside
`h1.a {...}` for selector `.a`. -/

/-- Length of a pattern match starting exactly at the head of `s`. -/
def ruleMatchLen (selS s : Str) : Option Nat :=
  if startsWithL selS s then
    let rest := s.drop selS.length
    let wsN := (rest.takeWhile isWsChar).length
    let rest2 := rest.drop wsN
    match rest2 with
    | c :: r3 =>
      if c = lbrace then
        let bodyN := (r3.takeWhile (fun ch => ¬ ch = rbrace)).length
        match r3.drop bodyN with
        | e :: _ => if e = rbrace then some (selS.length + wsN + 1 + bodyN + 1) else none
        | [] => none
      else none
    | [] => none
  else none

/-- `regex.test` with the rule pattern: does it match anywhere? -/
def ruleFound (selS : Str) : Str → Bool
  | [] => (ruleMatchLen selS []).isSome
  | c :: rest => (ruleMatchLen selS (c :: rest)).isSome || ruleFound selS rest

/-- The backtick character (written via its code point). -/
def backtickChar : Char := Char.ofNat 96

/-- The apostrophe character (written via its code point). -/
def aposChar : Char := Char.ofNat 39

/-- ES GetSubstitution for a string replacement under a pattern with
**no capture groups** (the rule pattern has none): `$$` is a literal
`$`, `$&` is the matched substring, a `$` followed by the backtick
character is the portion of the original string before the match, a `$`
followed by the apostrophe character is the portion after the match,
and every other `$`-sequence — including `$n`, since there is no group
to refer to, and `$<`, since there are no named groups — stays
verbatim, as does a trailing `$`. -/
def getSubstitution (matched before after : Str) : Str → Str
  | [] => []
  | '$' :: c :: rest =>
    if c = '$' then '$' :: getSubstitution matched before after rest
    else if c = '&' then matched ++ getSubstitution matched before after rest
    else if c = backtickChar then before ++ getSubstitution matched before after rest
    else if c = aposChar then after ++ getSubstitution matched before after rest
    else '$' :: c :: getSubstitution matched before after rest
  | c :: rest => c :: getSubstitution matched before after rest

/-- `String.replace` with the global rule pattern and a string
replacement: leftmost, non-overlapping; each match is replaced by the
replacement string with `$`-substitution performed against that match
within the whole original string `s0` (fuelled; every match consumes at
least two characters, so `s0.length` fuel suffices; the scanned tail is
always a suffix of `s0`). -/
def ruleReplaceAllF (selS repl s0 : Str) : Nat → Str → Str
  | _, [] => []
  | 0, s => s
  | fuel + 1, c :: rest =>
    match ruleMatchLen selS (c :: rest) with
    | some len =>
      let pos := s0.length - (c :: rest).length
      getSubstitution ((c :: rest).take len) (s0.take pos) (s0.drop (pos + len)) repl
        ++ ruleReplaceAllF selS repl s0 fuel ((c :: rest).drop len)
    | none => c :: ruleReplaceAllF selS repl s0 fuel rest

/-- Replace every rule-pattern match in `s`. -/
def ruleReplaceAll (selS repl s : Str) : Str :=
  ruleReplaceAllF selS repl s s.length s

/-- The replacement text `` `${op.selector} { ${op.css} }` ``. -/
def ruleTextOf (selS css : Str) : Str :=
  selS ++ str " \x7b " ++ css ++ str " \x7d"

/-- The whole `replaceCSS` text transformation
(src/canvas/src/lib/differ.js lines 168-182): replace all pattern
matches when the pattern tests positive — with `$`-substitution applied
to the composed replacement string, as `String.replace` does — else
append a new rule. -/
def replaceCSSText (selS css old : Str) : Str :=
  if ruleFound selS old then ruleReplaceAll selS (ruleTextOf selS css) old
  else old ++ str "\n" ++ ruleTextOf selS css

/-- Demonstration that the model performs the replacement-string
`$`-substitution of `String.replace`: a css payload containing `$&`
re-inserts the matched rule text, exactly as the engine would. -/
theorem replaceCSSText_dollar_substitution :
    replaceCSSText (str ".a") (str "color: $&") (str ".a \x7b color: red \x7d")
      = str ".a \x7b color: .a \x7b color: red \x7d \x7d"
    ∧ replaceCSSText (str ".a") (str "x: $$y $1") (str ".a \x7b q \x7d")
      = str ".a \x7b x: $y $1 \x7d" :=
  ⟨rfl, rfl⟩

/-! ### `_applyOp` and `applyDiff` -/

/-- `_applyOp` (src/canvas/src/lib/differ.js lines 80-193).  `.ok`
carries the new document and the `console.warn` lines the case emitted;
`.error` models an exception thrown inside the case (caught by
`applyDiff`'s per-operation `try`).  Sources of exceptions kept by the
model: `el.outerHTML = ...` on the root, `insertAdjacentHTML` beside the
root, `classList` token errors and `setAttribute` with an empty name. -/
def applyOpE (d : DomDoc) (op : Op) : Except String (DomDoc × List String) :=
  match op.op with
  | "replace" =>
    match selFirst d op.selector with
    | none => .ok (d, ["[differ] replace: no match for " ++ selText op.selector])
    | some p =>
      match splitLast p with
      | none => .error "NoModificationAllowedError"
      | some (pp, i) =>
        .ok (docSplice d pp (fun cs => cs.take i ++ op.html ++ cs.drop (i + 1)), [])
  | "replaceStyle" =>
    let ps := selAllPaths d op.selector
    if ps = [] then .ok (d, ["[differ] replaceStyle: no match for " ++ selText op.selector])
    else
      .ok (ps.foldl (fun acc p => docModifyElem acc p (fun e => setStyleD e op.property op.value)) d, [])
  | "replaceAttr" =>
    match selFirst d op.selector with
    | none => .ok (d, [])
    | some p =>
      if op.attr = "" then .error "InvalidCharacterError"
      else .ok (docModifyElem d p (fun e => setAttrD e op.attr op.value), [])
  | "replaceText" =>
    match selFirst d op.selector with
    | none => .ok (d, [])
    | some p =>
      .ok ((match d with
        | some r => some (updateAt (fun n => match n with
            | .elem e cs =>
              if (elemChildren cs).length = 0 then .elem e [.text op.text]
              else .elem e (replaceFirstTextChild cs op.text)
            | t => t) r p)
        | none => none), [])
  | "addClass" =>
    match selFirst d op.selector with
    | none => .ok (d, [])
    | some p =>
      if op.cls = "" then .error "SyntaxError: empty token"
      else if op.cls.data.any isWsChar then .error "InvalidCharacterError"
      else .ok (docModifyElem d p (fun e => addClassD e op.cls), [])
  | "removeClass" =>
    match selFirst d op.selector with
    | none => .ok (d, [])
    | some p =>
      if op.cls = "" then .error "SyntaxError: empty token"
      else if op.cls.data.any isWsChar then .error "InvalidCharacterError"
      else .ok (docModifyElem d p (fun e => removeClassD e op.cls), [])
  | "insertBefore" =>
    match selFirst d op.selector with
    | none => .ok (d, [])
    | some p =>
      match splitLast p with
      | none => .error "NoModificationAllowedError"
      | some (pp, i) =>
        .ok (docSplice d pp (fun cs => cs.take i ++ op.html ++ cs.drop i), [])
  | "insertAfter" =>
    match selFirst d op.selector with
    | none => .ok (d, [])
    | some p =>
      match splitLast p with
      | none => .error "NoModificationAllowedError"
      | some (pp, i) =>
        .ok (docSplice d pp (fun cs => cs.take (i + 1) ++ op.html ++ cs.drop (i + 1)), [])
  | "remove" =>
    match selFirst d op.selector with
    | none => .ok (d, [])
    | some p =>
      match splitLast p with
      | none => .ok (none, [])
      | some (pp, i) => .ok (docSplice d pp (fun cs => cs.eraseIdx i), [])
  | "replaceCSS" => do
    let (d2, sp) ← getOrCreateStyle d
    let old := (textAt d2 sp).data
    let newTxt := replaceCSSText (selText op.selector).data op.css.data old
    .ok (docSetText d2 sp (String.mk newTxt), [])
  | "injectStyle" => do
    let (d2, sp) ← getOrCreateStyle d
    .ok (docSetText d2 sp (textAt d2 sp ++ "\n" ++ op.css), [])
  | other => .ok (d, ["[differ] unknown op: " ++ other])

/-- The engine loop (src/canvas/src/lib/differ.js lines 48-59): apply
each operation under a `try` that converts exceptions into a warning and
continues. -/
def applyDiffRun : DomDoc × List String → List Op → DomDoc × List String
  | acc, [] => acc
  | (d, ws), op :: rest =>
    match applyOpE d op with
    | .ok (d2, ws2) => applyDiffRun (d2, ws ++ ws2) rest
    | .error e => applyDiffRun (d, ws ++ ["[differ] op failed: " ++ op.op ++ " " ++ e]) rest

/-- `applyDiff` (src/canvas/src/lib/differ.js lines 44-62): run the
batch, then serialize `doc.documentElement.outerHTML` (abstracted to
returning the tree) — which throws `TypeError` when the root has been
removed.  That throw happens **outside** the per-operation `try`. -/
def applyDiff (d : DomDoc) (ops : List Op) : Except String (DomDoc × List String) :=
  let r := applyDiffRun (d, []) ops
  match r.1 with
  | some _ => .ok r
  | none => .error "TypeError: doc.documentElement is null"

/-- One engine step as the batch sees it: the op's effect, or no change
when it threw. -/
def batchStep (d : DomDoc) (op : Op) : DomDoc :=
  match applyOpE d op with
  | .ok (d2, _) => d2
  | .error _ => d

/-- Whether an operation's discriminator consumes its selector through
`_sel`/`_selAll`. -/
def opUsesSelector (kind : String) : Bool :=
  kind = "replace" || kind = "replaceStyle" || kind = "replaceAttr" ||
  kind = "replaceText" || kind = "addClass" || kind = "removeClass" ||
  kind = "insertBefore" || kind = "insertAfter" || kind = "remove"

/-- Whether the op is skipped at `d` because its selector resolves to
nothing (invalid selectors included, through the catch in
`_sel`/`_selAll`). -/
def opSkipped (d : DomDoc) (op : Op) : Bool :=
  if op.op = "replaceStyle" then selAllPaths d op.selector = []
  else if opUsesSelector op.op then (selFirst d op.selector).isNone
  else false

/-- Whether the op fails at `d` (skipped, or its case throws). -/
def opFailed (d : DomDoc) (op : Op) : Bool :=
  opSkipped d op ||
    (match applyOpE d op with
     | .error _ => true
     | .ok _ => false)

/-- The operations of a batch that actually succeed, evaluated against
the evolving document. -/
def effOps : DomDoc → List Op → List Op
  | _, [] => []
  | d, op :: rest =>
    if opFailed d op then effOps d rest
    else op :: effOps (batchStep d op) rest

/-- Modelled from case `'replaceStyle'` of the legacy engine
`src/canvas/src/differ.js` lines 93-98: that variant resolves only the
**first** match (`_select` = `querySelector`) and styles it alone. -/
def legacyReplaceStyle (d : DomDoc) (sel : Sel) (prop v : String) : DomDoc :=
  match selFirst d sel with
  | none => d
  | some p => docModifyElem d p (fun e => setStyleD e prop v)

/-! ## Lemmas about the DOM model -/

theorem getElem?_modifyNth {α : Type} (f : α → α) :
    ∀ (l : List α) (i j : Nat),
      (modifyNth f l i)[j]? = if j = i then (l[j]?).map f else l[j]? := by
  intro l
  induction l with
  | nil => intro i j; simp [modifyNth]
  | cons x xs ih =>
      intro i j
      cases i with
      | zero =>
          cases j with
          | zero => simp [modifyNth]
          | succ j2 => simp [modifyNth]
      | succ i2 =>
          cases j with
          | zero => simp [modifyNth]
          | succ j2 =>
              simp only [modifyNth, List.getElem?_cons_succ, ih i2 j2]
              by_cases hji : j2 = i2 <;> simp [hji]

/-- Element-data view of a data-only modification: only the target path
changes, and there by `f`. -/
theorem elemDataAt_updateAt_mapData (f : ElemData → ElemData) :
    ∀ (q p : Path) (n : Node),
      elemDataAt (updateAt (mapData f) n q) p
        = if p = q then (elemDataAt n p).map f else elemDataAt n p := by
  intro q
  induction q with
  | nil =>
      intro p n
      cases n with
      | text s =>
          cases p with
          | nil => simp [updateAt, mapData, elemDataAt, nodeAt]
          | cons i p2 => simp [updateAt, mapData, elemDataAt, nodeAt]
      | elem e cs =>
          cases p with
          | nil => simp [updateAt, mapData, elemDataAt, nodeAt]
          | cons i p2 => simp [updateAt, mapData, elemDataAt, nodeAt]
  | cons i q2 ih =>
      intro p n
      cases n with
      | text s =>
          cases p with
          | nil => simp [updateAt, elemDataAt, nodeAt]
          | cons j p2 => simp [updateAt, elemDataAt, nodeAt]
      | elem e cs =>
          cases p with
          | nil => simp [updateAt, elemDataAt, nodeAt]
          | cons j p2 =>
              by_cases hji : j = i
              · subst hji
                cases hc : cs[j]? with
                | none =>
                    have hL : elemDataAt (updateAt (mapData f) (.elem e cs) (j :: q2)) (j :: p2)
                        = none := by
                      simp [updateAt, elemDataAt, nodeAt, getElem?_modifyNth, hc]
                    have hR : elemDataAt (.elem e cs) (j :: p2) = none := by
                      simp [elemDataAt, nodeAt, hc]
                    rw [hL, hR]
                    by_cases hpq : (j :: p2 : Path) = j :: q2 <;> simp [hpq]
                | some c =>
                    have hL : elemDataAt (updateAt (mapData f) (.elem e cs) (j :: q2)) (j :: p2)
                        = elemDataAt (updateAt (mapData f) c q2) p2 := by
                      simp [updateAt, elemDataAt, nodeAt, getElem?_modifyNth, hc]
                    have hR : elemDataAt (.elem e cs) (j :: p2) = elemDataAt c p2 := by
                      simp [elemDataAt, nodeAt, hc]
                    rw [hL, hR, ih p2 c]
                    by_cases hpq : p2 = q2
                    · simp [hpq]
                    · have hne : ((j :: p2 : Path) = j :: q2) ↔ False := by simp [hpq]
                      simp [hpq, hne]
              · have hL : elemDataAt (updateAt (mapData f) (.elem e cs) (i :: q2)) (j :: p2)
                    = elemDataAt (.elem e cs) (j :: p2) := by
                  simp only [updateAt, elemDataAt, nodeAt, getElem?_modifyNth, hji, if_false]
                rw [hL]
                have hne : ((j :: p2 : Path) = i :: q2) ↔ False := by simp [hji]
                simp [hne]

/-- Document-level version. -/
theorem docElemDataAt_docModifyElem (d : DomDoc) (q p : Path) (f : ElemData → ElemData) :
    docElemDataAt (docModifyElem d q f) p
      = if p = q then (docElemDataAt d p).map f else docElemDataAt d p := by
  cases d with
  | none => simp [docModifyElem, docElemDataAt]
  | some r =>
      simp only [docModifyElem, docElemDataAt]
      exact elemDataAt_updateAt_mapData f q p r

/-- Folding data-only modifications over a path list, for an idempotent
`f`: pointwise effect on the members of the list. -/
theorem docElemDataAt_fold_modify (f : ElemData → ElemData)
    (hf : ∀ e, f (f e) = f e) (p : Path) :
    ∀ (L : List Path) (d : DomDoc),
      docElemDataAt (L.foldl (fun acc q => docModifyElem acc q f) d) p
        = if p ∈ L then (docElemDataAt d p).map f else docElemDataAt d p := by
  intro L
  induction L with
  | nil => intro d; simp
  | cons q rest ih =>
      intro d
      simp only [List.foldl_cons, ih, docElemDataAt_docModifyElem]
      by_cases hpq : p = q
      · subst hpq
        by_cases hpr : p ∈ rest
        · simp only [hpr, if_true, if_pos rfl, List.mem_cons, true_or, if_true]
          cases docElemDataAt d p with
          | none => simp
          | some e => simp [hf]
        · simp [hpr, List.mem_cons]
      · by_cases hpr : p ∈ rest
        · simp [hpr, hpq, List.mem_cons]
        · simp [hpr, hpq, List.mem_cons]

/-- Membership in `allPathsC` decomposed. -/
theorem mem_allPathsC (j : Nat) (p2 : Path) :
    ∀ (cs : List Node) (k : Nat),
      ((j :: p2) ∈ allPathsC cs k
        ↔ ∃ i, j = k + i ∧ ∃ c, cs[i]? = some c ∧ p2 ∈ allPathsN c) := by
  intro cs
  induction cs with
  | nil => intro k; simp [allPathsC]
  | cons c cs2 ih =>
      intro k
      simp only [allPathsC, List.mem_append, List.mem_map, ih]
      constructor
      · rintro (⟨q, hq, hEq⟩ | ⟨i, hji, c2, hc2, hp2⟩)
        · injection hEq with h1 h2
          subst h2
          exact ⟨0, by omega, c, by simp, hq⟩
        · exact ⟨i + 1, by omega, c2, by simpa using hc2, hp2⟩
      · rintro ⟨i, hji, c2, hc2, hp2⟩
        cases i with
        | zero =>
            left
            refine ⟨p2, ?_, ?_⟩
            · simp at hc2
              subst hc2
              exact hp2
            · simp [hji]
        | succ i2 =>
            right
            exact ⟨i2, by omega, c2, by simpa using hc2, hp2⟩

/-- `allPathsN` enumerates exactly the element paths. -/
theorem mem_allPathsN : ∀ (p : Path) (n : Node),
    p ∈ allPathsN n ↔ (elemDataAt n p).isSome = true := by
  intro p
  induction p with
  | nil =>
      intro n
      cases n with
      | text s => simp [allPathsN, elemDataAt, nodeAt]
      | elem e cs => simp [allPathsN, elemDataAt, nodeAt]
  | cons j p2 ih =>
      intro n
      cases n with
      | text s => simp [allPathsN, elemDataAt, nodeAt]
      | elem e cs =>
          simp only [allPathsN, List.mem_cons, false_or, mem_allPathsC j p2 cs 0]
          constructor
          · rintro (h | ⟨i, hji, c, hc, hp2⟩)
            · exact absurd h (by simp)
            · have hj : j = i := by omega
              subst hj
              simp only [elemDataAt, nodeAt, hc]
              have := (ih c).mp hp2
              simpa [elemDataAt] using this
          · intro h
            simp only [elemDataAt, nodeAt] at h
            cases hc : cs[j]? with
            | none => simp [hc] at h
            | some c =>
                right
                refine ⟨j, by omega, c, hc, ?_⟩
                apply (ih c).mpr
                simp only [hc] at h
                simpa [elemDataAt] using h

/-- Document-level enumeration correctness. -/
theorem mem_docPaths (d : DomDoc) (p : Path) :
    p ∈ docPaths d ↔ (docElemDataAt d p).isSome = true := by
  cases d with
  | none => simp [docPaths, docElemDataAt]
  | some r => simpa [docPaths, docElemDataAt] using mem_allPathsN p r

/-- Setting the same key to the same value twice is the same as once. -/
theorem assocSet_idem (l : List (String × String)) (k v : String) :
    assocSet (assocSet l k v) k v = assocSet l k v := by
  by_cases h : l.any (fun kv => kv.1 = k) = true
  · have hmap : (l.map (fun kv => if kv.1 = k then (k, v) else kv)).any
        (fun kv => kv.1 = k) = true := by
      obtain ⟨kv, hmem, hk⟩ := List.any_eq_true.mp h
      refine List.any_eq_true.mpr ⟨(k, v), ?_, by simp⟩
      refine List.mem_map.mpr ⟨kv, hmem, ?_⟩
      simp only [decide_eq_true_eq] at hk
      simp [hk]
    unfold assocSet
    rw [if_pos h, if_pos hmap, List.map_map]
    apply List.map_congr_left
    intro kv _
    by_cases hk : kv.1 = k <;> simp [hk]
  · have happ : (l ++ [(k, v)]).any (fun kv => kv.1 = k) = true := by
      simp
    unfold assocSet
    rw [if_neg h, if_pos happ, List.map_append]
    have hl : l.map (fun kv => if kv.1 = k then (k, v) else kv) = l := by
      have : l.map (fun kv => if kv.1 = k then (k, v) else kv) = l.map id := by
        apply List.map_congr_left
        intro kv hmem
        have hnk : ¬ kv.1 = k := by
          intro hc
          exact h (List.any_eq_true.mpr ⟨kv, hmem, by simp [hc]⟩)
        simp [hnk]
      rw [this, List.map_id]
    rw [hl]
    simp

/-- `style[prop] = v` is idempotent. -/
theorem setStyleD_idem (e : ElemData) (p v : String) :
    setStyleD (setStyleD e p v) p v = setStyleD e p v := by
  unfold setStyleD
  simp [assocSet_idem]

/-- A matching element path carries element data. -/
theorem selMatches_isSome (d : DomDoc) (p : Path) (sel : Sel)
    (h : selMatches d p sel = true) : (docElemDataAt d p).isSome = true := by
  cases sel with
  | invalid s => simp [selMatches] at h
  | chain parts =>
      cases hrev : parts.reverse with
      | nil =>
          have : parts = [] := by
            have := congrArg List.reverse hrev
            simpa using this
          subst this
          simp [selMatches] at h
      | cons sp rest =>
          cases parts with
          | nil => simp at hrev
          | cons a as =>
              simp only [selMatches, hrev, selMatchesRev, Bool.and_eq_true] at h
              have hm := h.1
              unfold partMatches at hm
              cases hd : docElemDataAt d p with
              | none => rw [hd] at hm; exact absurd hm (by simp)
              | some e => simp

/-- C3 (corrected, engine of src/canvas/src/lib/differ.js): the
`replaceStyle` operation of the current patch engine resolves **all**
matches and sets the named style property to the given value on each of
them, pointwise: after the step, the element data at any path is the old
data with the style set when the selector matches there, and is
untouched everywhere else.  (The legacy engine variant styles only the
first match — see the counterexample.) -/
theorem c3_replaceStyle_all_matches (d : DomDoc) (sel : Sel) (prop v : String) (p : Path) :
    docElemDataAt
        (batchStep d { op := "replaceStyle", selector := sel, property := prop, value := v }) p
      = if selMatches d p sel = true
        then (docElemDataAt d p).map (fun e => setStyleD e prop v)
        else docElemDataAt d p := by
  have hstep : batchStep d { op := "replaceStyle", selector := sel, property := prop, value := v }
      = (if selAllPaths d sel = [] then d
         else (selAllPaths d sel).foldl
           (fun acc q => docModifyElem acc q (fun e => setStyleD e prop v)) d) := by
    unfold batchStep applyOpE
    by_cases hps : selAllPaths d sel = []
    · simp [hps]
    · simp [hps]
  rw [hstep]
  by_cases hps : selAllPaths d sel = []
  · rw [if_pos hps]
    by_cases hm : selMatches d p sel = true
    · exfalso
      have hmem : p ∈ selAllPaths d sel := by
        cases sel with
        | invalid s => simp [selMatches] at hm
        | chain parts =>
            unfold selAllPaths resolveAll
            simp only [List.mem_filter]
            exact ⟨(mem_docPaths d p).mpr (selMatches_isSome d p _ hm), hm⟩
      rw [hps] at hmem
      exact absurd hmem (List.not_mem_nil p)
    · simp [hm]
  · rw [if_neg hps]
    rw [docElemDataAt_fold_modify (fun e => setStyleD e prop v)
      (fun e => setStyleD_idem e prop v) p (selAllPaths d sel) d]
    have hiff : p ∈ selAllPaths d sel ↔ selMatches d p sel = true := by
      cases sel with
      | invalid s =>
          simp only [selAllPaths, resolveAll]
          simp [selMatches]
      | chain parts =>
          unfold selAllPaths resolveAll
          simp only [List.mem_filter]
          constructor
          · intro h
            exact h.2
          · intro h
            exact ⟨(mem_docPaths d p).mpr (selMatches_isSome d p _ h), h⟩
    by_cases hm : selMatches d p sel = true
    · rw [if_pos (hiff.mpr hm), if_pos hm]
    · rw [if_neg (fun hc => hm (hiff.mp hc)), if_neg hm]

/-- The demonstration document for the style counterexample:
`html > [head, body > [div.a, div.a]]`. -/
def demoDocC3 : DomDoc :=
  some (.elem { tag := "html", attrs := [], style := [] }
    [.elem { tag := "head", attrs := [], style := [] } [],
     .elem { tag := "body", attrs := [], style := [] }
       [.elem { tag := "div", attrs := [("class", "a")], style := [] } [],
        .elem { tag := "div", attrs := [("class", "a")], style := [] } []]])

/-- C3 counterexample: in the legacy engine variant
(`src/canvas/src/differ.js` lines 93-98) a `replaceStyle` on `.a`
against a document with two matching `div.a` elements styles only the
first: the second matching element's style is left without the property,
so "resolves all elements matching the selector" fails on that engine. -/
theorem c3_counterexample :
    selMatches demoDocC3 [1, 1] (Sel.chain [SPart.clsSel "a"]) = true
    ∧ (docElemDataAt (legacyReplaceStyle demoDocC3 (Sel.chain [SPart.clsSel "a"]) "color" "red")
        [1, 0]).map (fun e => styleOf e "color") = some (some "red")
    ∧ (docElemDataAt (legacyReplaceStyle demoDocC3 (Sel.chain [SPart.clsSel "a"]) "color" "red")
        [1, 1]).map (fun e => styleOf e "color") = some none := by
  refine ⟨by decide, by decide, by decide⟩

/-! ## Lemmas about the engine loop -/

/-- The document after the loop is the fold of the per-op total step
(the warnings prefix does not influence it). -/
theorem applyDiffRun_fst : ∀ (ops : List Op) (d : DomDoc) (ws : List String),
    (applyDiffRun (d, ws) ops).1 = ops.foldl batchStep d := by
  intro ops
  induction ops with
  | nil => intro d ws; rfl
  | cons op rest ih =>
      intro d ws
      simp only [applyDiffRun, List.foldl_cons]
      cases happ : applyOpE d op with
      | ok r =>
          have hb : batchStep d op = r.1 := by
            unfold batchStep
            rw [happ]
          rw [hb]
          exact ih r.1 (ws ++ r.2)
      | error e =>
          have hb : batchStep d op = d := by
            unfold batchStep
            rw [happ]
          rw [hb]
          exact ih d _

/-- A skipped operation (selector resolving to nothing, invalid
selectors included) leaves the document unchanged. -/
theorem batchStep_of_skipped (d : DomDoc) (op : Op) (h : opSkipped d op = true) :
    batchStep d op = d := by
  unfold opSkipped at h
  by_cases h1 : op.op = "replaceStyle"
  · rw [if_pos h1] at h
    simp only [decide_eq_true_eq] at h
    unfold batchStep applyOpE
    rw [h1]
    simp [h]
  · rw [if_neg h1] at h
    by_cases h2 : opUsesSelector op.op = true
    · rw [if_pos h2] at h
      have hnone : selFirst d op.selector = none := Option.isNone_iff_eq_none.mp h
      unfold opUsesSelector at h2
      simp only [Bool.or_eq_true, decide_eq_true_eq] at h2
      unfold batchStep applyOpE
      rcases h2 with ((((((((hk | hk) | hk) | hk) | hk) | hk) | hk) | hk) | hk) <;>
        first
          | (exact absurd hk h1)
          | (rw [hk]; simp [hnone])
    · rw [if_neg h2] at h
      exact absurd h (by simp)

/-- Dropping the failed operations (evaluated against the evolving
document) does not change the batch's result. -/
theorem foldl_batchStep_effOps : ∀ (ops : List Op) (d : DomDoc),
    ops.foldl batchStep d = (effOps d ops).foldl batchStep d := by
  intro ops
  induction ops with
  | nil => intro d; rfl
  | cons op rest ih =>
      intro d
      by_cases hf : opFailed d op = true
      · have hid : batchStep d op = d := by
          by_cases hs : opSkipped d op = true
          · exact batchStep_of_skipped d op hs
          · unfold opFailed at hf
            simp only [Bool.or_eq_true] at hf
            rcases hf with hf | hf
            · exact absurd hf hs
            · unfold batchStep
              cases happ : applyOpE d op with
              | ok r => rw [happ] at hf; simp at hf
              | error e => rfl
        simp only [effOps, hf, if_true, List.foldl_cons, hid]
        exact ih d
      · simp only [effOps, hf, if_false, List.foldl_cons]
        exact ih (batchStep d op)

/-- C1 (corrected): `applyDiff` processes the operations in array order
through the total per-operation step `batchStep` — a failing operation
(no-match skip or thrown exception) leaves the document unchanged and
never aborts the batch, so the result is the input document plus exactly
the effects of the operations that did succeed; a syntactically invalid
selector is skipped exactly like a no-match.  However the engine is
**not** raise-free: after the batch, serialization throws a `TypeError`
precisely when the document element was detached by a `remove`
operation, and that throw reaches the caller. -/
theorem c1_applyDiff_batch (d : DomDoc) (ops : List Op) :
    (∀ res, applyDiff d ops = .ok res → res.1 = ops.foldl batchStep d)
    ∧ ops.foldl batchStep d = (effOps d ops).foldl batchStep d
    ∧ (∀ op, opSkipped d op = true → batchStep d op = d)
    ∧ (∀ op s, op.selector = Sel.invalid s → opUsesSelector op.op = true →
        opSkipped d op = true)
    ∧ (applyDiff d ops = .error "TypeError: doc.documentElement is null"
        ↔ ops.foldl batchStep d = none) := by
  have hfst := applyDiffRun_fst ops d []
  have hdef : applyDiff d ops
      = (match (applyDiffRun (d, []) ops).1 with
         | some _ => Except.ok (applyDiffRun (d, []) ops)
         | none => (Except.error "TypeError: doc.documentElement is null" :
             Except String (DomDoc × List String))) := rfl
  refine ⟨?_, foldl_batchStep_effOps ops d, fun op => batchStep_of_skipped d op, ?_, ?_⟩
  · intro res hok
    rw [hdef] at hok
    cases hr : (applyDiffRun (d, []) ops).1 with
    | some r =>
        simp only [hr] at hok
        injection hok with hok
        rw [← hok]
        exact hfst
    | none =>
        simp only [hr] at hok
        simp at hok
  · intro op s hsel huse
    unfold opSkipped
    by_cases h1 : op.op = "replaceStyle"
    · rw [if_pos h1]
      simp [hsel, selAllPaths, resolveAll]
    · rw [if_neg h1, if_pos huse]
      simp [hsel, selFirst, resolveAll]
  · constructor
    · intro herr
      rw [hdef] at herr
      cases hr : (applyDiffRun (d, []) ops).1 with
      | some r =>
          simp only [hr] at herr
          simp at herr
      | none => rw [← hfst, hr]
    · intro hnone
      rw [hdef]
      have hrn : (applyDiffRun (d, []) ops).1 = none := by
        rw [hfst]
        exact hnone
      simp only [hrn]

/-- The demonstration document for the batch counterexample:
`html > [head, body > p]`. -/
def demoDocC1 : DomDoc :=
  some (.elem { tag := "html", attrs := [], style := [] }
    [.elem { tag := "head", attrs := [], style := [] } [],
     .elem { tag := "body", attrs := [], style := [] }
       [.elem { tag := "p", attrs := [], style := [] } []]])

/-- C1 counterexample: (1) a batch consisting of one
`{op:'remove', selector:'html'}` detaches the document element, and the
final `doc.documentElement.outerHTML` serialization — outside the
per-operation `try` — throws a `TypeError` to the caller, so the engine
does **not** always complete without raising; (2) a `replaceAttr`
operation whose selector matches nothing is skipped silently, emitting
no warning, so "skipped with a warning" does not hold for every
operation kind. -/
theorem c1_counterexample :
    applyDiff demoDocC1 [{ op := "remove", selector := Sel.chain [SPart.tagName "html"] }]
      = .error "TypeError: doc.documentElement is null"
    ∧ applyDiff demoDocC1
        [{ op := "replaceAttr", selector := Sel.chain [SPart.clsSel "nope"],
           attr := "x", value := "y" }]
      = .ok (demoDocC1, []) :=
  ⟨rfl, rfl⟩

/-- Witness for `c1_applyDiff_batch`: the ok-result projection and the
invalid-selector-skip conjuncts applied at concrete inputs. -/
theorem c1_applyDiff_batch_witness :
    ([{ op := "addClass", selector := Sel.chain [SPart.tagName "p"], cls := "x" }].foldl
        batchStep demoDocC1
      = (some (.elem { tag := "html", attrs := [], style := [] }
          [.elem { tag := "head", attrs := [], style := [] } [],
           .elem { tag := "body", attrs := [], style := [] }
             [.elem { tag := "p", attrs := [("class", "x")], style := [] } []]]) : DomDoc))
    ∧ opSkipped demoDocC1 { op := "remove", selector := Sel.invalid "p[" } = true := by
  constructor
  · have h := (c1_applyDiff_batch demoDocC1
      [{ op := "addClass", selector := Sel.chain [SPart.tagName "p"], cls := "x" }]).1
      _ rfl
    rw [← h]
    rfl
  · exact (c1_applyDiff_batch demoDocC1 []).2.2.2.1
      { op := "remove", selector := Sel.invalid "p[" } "p[" rfl rfl

/-! ## Lemmas for `replaceCSS` -/

/-- The rule pattern never matches in empty text. -/
theorem ruleFound_nil (selS : Str) : ruleFound selS [] = false := by
  unfold ruleFound ruleMatchLen
  by_cases h : startsWithL selS [] = true
  · cases selS with
    | nil => simp [h]
    | cons c r => simp [startsWithL] at h
  · simp [h]

/-- Looking below the rewritten node: the update is visible there. -/
theorem nodeAt_updateAt_append (g : Node → Node) :
    ∀ (q : Path) (n m : Node) (rest : Path), nodeAt n q = some m →
      nodeAt (updateAt g n q) (q ++ rest) = nodeAt (g m) rest := by
  intro q
  induction q with
  | nil =>
      intro n m rest h
      cases n with
      | text s =>
          simp only [nodeAt] at h
          injection h with h
          subst h
          rfl
      | elem e cs =>
          simp only [nodeAt] at h
          injection h with h
          subst h
          rfl
  | cons i q2 ih =>
      intro n m rest h
      cases n with
      | text s => simp [nodeAt] at h
      | elem e cs =>
          simp only [nodeAt] at h
          cases hc : cs[i]? with
          | none => rw [hc] at h; cases h
          | some c =>
              rw [hc] at h
              simp only [updateAt, List.cons_append, nodeAt, getElem?_modifyNth,
                if_pos rfl, hc, Option.map_some]
              exact ih c m rest h

/-- Appending a child under a valid element path: the appended node sits
at the next child index. -/
theorem docNodeAt_splice_append (r : Node) (hp : Path) (he : ElemData)
    (hcs : List Node) (x : Node) (h : nodeAt r hp = some (.elem he hcs)) :
    docNodeAt (docSplice (some r) hp (fun cs0 => cs0 ++ [x])) (hp ++ [hcs.length])
      = some x := by
  have hdef : docNodeAt (docSplice (some r) hp (fun cs0 => cs0 ++ [x])) (hp ++ [hcs.length])
      = nodeAt (updateAt (fun n => match n with
          | Node.elem e cs => Node.elem e (cs ++ [x])
          | t => t) r hp) (hp ++ [hcs.length]) := rfl
  rw [hdef, nodeAt_updateAt_append _ hp r (.elem he hcs) [hcs.length] h]
  simp [nodeAt, List.getElem?_concat_length]

/-- C8 (corrected): `replaceCSS` works within the document's **last**
style block, creating one (appended to the head, or to the root when
there is no head) if none exists; in the block's text, when the
unanchored pattern "selector text, optional whitespace, braced body"
occurs anywhere — a substring test, not an exact selector-text match —
**every** such occurrence is replaced whole by `selector { css }` with
the replacement-string `$`-substitution of `String.replace` applied;
otherwise `\n selector { css }` is appended to the block's text.
Nothing outside the affected style element changes (the result is the
surgical text update). -/
theorem c8_replaceCSS_last_style (d : DomDoc) (selS css : String) :
    (∀ sp, (stylePaths d).getLast? = some sp →
      applyOpE d { op := "replaceCSS", selector := .invalid selS, css := css }
        = .ok (docSetText d sp
            (String.mk (replaceCSSText selS.data css.data (textAt d sp).data)), []))
    ∧ (stylePaths d = [] →
      ∀ hp he hcs, headPath d = some hp → docNodeAt d hp = some (.elem he hcs) →
        applyOpE d { op := "replaceCSS", selector := .invalid selS, css := css }
          = .ok (docSetText
              (docSplice d hp (fun cs0 =>
                cs0 ++ [.elem { tag := "style", attrs := [], style := [] } []]))
              (hp ++ [hcs.length])
              (String.mk (str "\n" ++ ruleTextOf selS.data css.data)), [])) := by
  constructor
  · intro sp hsp
    have hgo : getOrCreateStyle d = .ok (d, sp) := by
      unfold getOrCreateStyle
      rw [hsp]
    show (do
      let ds ← getOrCreateStyle d
      Except.ok (docSetText ds.1 ds.2
        (String.mk (replaceCSSText
          (selText (Sel.invalid selS)).data css.data (textAt ds.1 ds.2).data)), [])) = _
    rw [hgo]
    rfl
  · intro hnone hp he hcs hhead hnode
    have hlast : (stylePaths d).getLast? = none := by
      rw [hnone]
      rfl
    have hgo : getOrCreateStyle d
        = .ok (docSplice d hp (fun cs0 =>
            cs0 ++ [.elem { tag := "style", attrs := [], style := [] } []]),
           hp ++ [hcs.length]) := by
      unfold getOrCreateStyle
      rw [hlast]
      simp only [hhead, Option.getD_some, hnode]
    have hroot : ∃ r, d = some r := by
      cases d with
      | none => simp [docNodeAt] at hnode
      | some r => exact ⟨r, rfl⟩
    obtain ⟨r, hr⟩ := hroot
    have htext : textAt
        (docSplice d hp (fun cs0 =>
          cs0 ++ [.elem { tag := "style", attrs := [], style := [] } []]))
        (hp ++ [hcs.length]) = "" := by
      subst hr
      have hnr : nodeAt r hp = some (.elem he hcs) := hnode
      have h5 := docNodeAt_splice_append r hp he hcs
        (.elem { tag := "style", attrs := [], style := [] } []) hnr
      unfold textAt
      rw [h5]
      rfl
    have hfix : replaceCSSText selS.data css.data ("" : String).data
        = str "\n" ++ ruleTextOf selS.data css.data := by
      show replaceCSSText selS.data css.data [] = _
      unfold replaceCSSText
      rw [ruleFound_nil]
      simp
    show (do
      let ds ← getOrCreateStyle d
      Except.ok (docSetText ds.1 ds.2
        (String.mk (replaceCSSText
          (selText (Sel.invalid selS)).data css.data (textAt ds.1 ds.2).data)), [])) = _
    rw [hgo]
    show Except.ok (docSetText _ _ (String.mk (replaceCSSText
        (selText (Sel.invalid selS)).data css.data (textAt _ _).data)), []) = _
    rw [htext]
    rw [show (selText (Sel.invalid selS)).data = selS.data from rfl]
    rw [hfix]

/-- The demonstration document for the CSS-rule claims:
`html > [head > style("h1.a { color: red }"), body]`. -/
def demoDocC8 : DomDoc :=
  some (.elem { tag := "html", attrs := [], style := [] }
    [.elem { tag := "head", attrs := [], style := [] }
       [.elem { tag := "style", attrs := [], style := [] } [.text "h1.a \x7b color: red \x7d"]],
     .elem { tag := "body", attrs := [], style := [] } []])

/-- Witness for `c8_replaceCSS_last_style`: the last-style case applied
to a concrete document. -/
theorem c8_replaceCSS_last_style_witness :
    applyOpE demoDocC8 { op := "replaceCSS", selector := .invalid ".a", css := "color: blue" }
      = .ok (docSetText demoDocC8 [0, 0]
          (String.mk (replaceCSSText (str ".a") (str "color: blue")
            (str "h1.a \x7b color: red \x7d"))), []) :=
  (c8_replaceCSS_last_style demoDocC8 ".a" "color: blue").1 [0, 0] rfl

/-- C8 counterexample: the style block `h1.a { color: red }` contains
**no** rule whose selector text exactly matches `.a`, so the claim
demands that a new `.a` rule be appended and the `h1.a` rule kept.  The
engine's unanchored pattern matches inside `h1.a {...}`, so it rewrites
that rule to `h1.a { color: blue }` instead of appending. -/
theorem c8_counterexample :
    textAt (batchStep demoDocC8
        { op := "replaceCSS", selector := .invalid ".a", css := "color: blue" }) [0, 0]
      = "h1.a \x7b color: blue \x7d"
    ∧ textAt (batchStep demoDocC8
        { op := "replaceCSS", selector := .invalid ".a", css := "color: blue" }) [0, 0]
      ≠ "h1.a \x7b color: red \x7d\n.a \x7b color: blue \x7d" :=
  ⟨rfl, by decide⟩

/-! ## Selector synthesis (src/canvas/src/lib/selectionBridge.js lines 182-224) -/

/-- One level of the synthesized selector: the tag alone when the parent
has no other element child of that tag, else `tag:nth-of-type(k)` with
the 1-based rank among same-tag element children (lines 200-216). -/
def nthPart (d : DomDoc) (p : Path) (e : ElemData) : SPart :=
  match splitLast p with
  | none => SPart.tagName e.tag
  | some (pp, i) =>
    match docNodeAt d pp with
    | some (.elem _ cs) =>
      if 1 < countTagAll cs e.tag then SPart.tagNth e.tag (countTagBefore cs e.tag i + 1)
      else SPart.tagName e.tag
    | _ => SPart.tagName e.tag

/-- The ascent loop of `getSelector` (lines 191-219): anchor and stop at
the first id, else accumulate a part per level, stopping below the body
or the root and prepending the literal `body`.  Fuelled by the path
length: one ancestor per step, so the zero-fuel arm is unreachable. -/
def getSelWalkF (d : DomDoc) : Nat → Path → List SPart → Sel
  | 0, _, acc => Sel.chain (SPart.tagName "body" :: acc)
  | fuel + 1, p, acc =>
    match docElemDataAt d p with
    | none => Sel.chain (SPart.tagName "body" :: acc)
    | some e =>
      if idOf e ≠ "" then Sel.chain (SPart.idSel (idOf e) :: acc)
      else
        let part := nthPart d p e
        let pp := p.dropLast
        if pp = [] ∨ bodyPath d = some pp then Sel.chain (SPart.tagName "body" :: part :: acc)
        else getSelWalkF d fuel pp (part :: acc)

/-- `getSelector` (lines 182-224): body and the root map to the literal
`body` / `html` selectors before any id is consulted; other elements
walk up via `getSelWalkF`. -/
def getSelector (d : DomDoc) (p : Path) : Sel :=
  match docElemDataAt d p with
  | none => Sel.chain [SPart.tagName "body"]
  | some _ =>
    if bodyPath d = some p then Sel.chain [SPart.tagName "body"]
    else if p = [] then Sel.chain [SPart.tagName "html"]
    else getSelWalkF d p.length p []

/-- Helper: matching a one-part id selector is exactly carrying that id. -/
theorem selMatches_single_id (d : DomDoc) (q : Path) (i : String) :
    selMatches d q (Sel.chain [SPart.idSel i]) = true
      ↔ ∃ e2, docElemDataAt d q = some e2 ∧ idOf e2 = i := by
  show selMatchesRev d q ([SPart.idSel i].reverse) = true ↔ _
  simp only [List.reverse_singleton, selMatchesRev, List.isEmpty_nil, Bool.true_or,
    Bool.and_true]
  unfold partMatches
  cases hq : docElemDataAt d q with
  | none => simp
  | some e2 => simp [hq]

/-- Helper: the head of a filtered list whose only satisfying member is
`p`. -/
theorem head?_filter_unique {α : Type} (pr : α → Bool) (p : α) :
    ∀ l : List α, p ∈ l → pr p = true → (∀ x ∈ l, pr x = true → x = p) →
      (l.filter pr).head? = some p := by
  intro l
  induction l with
  | nil => intro h; cases h
  | cons a rest ih =>
      intro hmem hp huniq
      by_cases ha : pr a = true
      · have haa : a = p := huniq a (List.mem_cons_self a rest) ha
        subst haa
        simp [List.filter_cons, ha]
      · have hpa : p ≠ a := fun hc => ha (hc ▸ hp)
        have hmem2 : p ∈ rest := by
          rcases List.mem_cons.mp hmem with h1 | h2
          · exact absurd h1 hpa
          · exact h2
        simp only [List.filter_cons, ha, Bool.false_eq_true, if_false]
        exact ih hmem2 hp (fun x hx => huniq x (List.mem_cons_of_mem a hx))

/-- C9 (corrected): for every element other than the body and the root
that carries a document-unique id, the synthesized selector anchors at
that id — it is exactly the one-part `#id` selector, ascending no
further — and re-resolving it through `querySelector` yields exactly the
element it was synthesized from, regardless of sibling structure.  (The
body and the root map to the literal `body`/`html` selectors even when
they carry an id — see the counterexample.) -/
theorem c9_id_anchor_roundtrip (d : DomDoc) (p : Path) (e : ElemData)
    (hp : docElemDataAt d p = some e)
    (hid : idOf e ≠ "")
    (hnb : bodyPath d ≠ some p)
    (hnr : p ≠ [])
    (huniq : ∀ q ∈ docPaths d, ∀ e2, docElemDataAt d q = some e2 →
        idOf e2 = idOf e → q = p) :
    getSelector d p = Sel.chain [SPart.idSel (idOf e)]
    ∧ selFirst d (Sel.chain [SPart.idSel (idOf e)]) = some p := by
  constructor
  · unfold getSelector
    simp only [hp]
    rw [if_neg hnb, if_neg hnr]
    obtain ⟨i0, p0, hp0⟩ : ∃ i0 p0, p = i0 :: p0 := by
      cases p with
      | nil => exact absurd rfl hnr
      | cons a b => exact ⟨a, b, rfl⟩
    have hlen : p.length = p0.length + 1 := by rw [hp0]; rfl
    rw [hlen]
    simp only [getSelWalkF, hp]
    rw [if_pos hid]
  · unfold selFirst resolveAll
    show ((docPaths d).filter
      (fun q => selMatches d q (Sel.chain [SPart.idSel (idOf e)]))).head? = some p
    apply head?_filter_unique
    · exact (mem_docPaths d p).mpr (by simp [hp])
    · exact (selMatches_single_id d p (idOf e)).mpr ⟨e, hp, rfl⟩
    · intro q hq hmq
      obtain ⟨e2, hq2, hid2⟩ := (selMatches_single_id d q (idOf e)).mp hmq
      exact huniq q hq e2 hq2 hid2

/-- Demonstration document with a uniquely-identified div:
`html > [head, body > div#x]`. -/
def demoDocC9 : DomDoc :=
  some (.elem { tag := "html", attrs := [], style := [] }
    [.elem { tag := "head", attrs := [], style := [] } [],
     .elem { tag := "body", attrs := [], style := [] }
       [.elem { tag := "div", attrs := [("id", "x")], style := [] } []]])

/-- Witness for `c9_id_anchor_roundtrip`: the concrete div#x synthesizes
`#x` and resolves back to itself. -/
theorem c9_id_anchor_roundtrip_witness :
    getSelector demoDocC9 [1, 0] = Sel.chain [SPart.idSel "x"]
    ∧ selFirst demoDocC9 (Sel.chain [SPart.idSel "x"]) = some [1, 0] := by
  have h := c9_id_anchor_roundtrip demoDocC9 [1, 0]
    { tag := "div", attrs := [("id", "x")], style := [] }
    rfl (by decide) (by decide) (by decide)
    (by
      intro q hq e2 hq2 hid2
      fin_cases hq
      · exfalso
        have h0 : docElemDataAt demoDocC9 []
            = some { tag := "html", attrs := [], style := [] } := rfl
        rw [h0] at hq2
        injection hq2 with h1
        rw [← h1] at hid2
        exact absurd hid2 (by decide)
      · exfalso
        have h0 : docElemDataAt demoDocC9 [0]
            = some { tag := "head", attrs := [], style := [] } := rfl
        rw [h0] at hq2
        injection hq2 with h1
        rw [← h1] at hid2
        exact absurd hid2 (by decide)
      · exfalso
        have h0 : docElemDataAt demoDocC9 [1]
            = some { tag := "body", attrs := [], style := [] } := rfl
        rw [h0] at hq2
        injection hq2 with h1
        rw [← h1] at hid2
        exact absurd hid2 (by decide)
      · rfl)
  exact h

/-- Demonstration document whose body carries a unique id:
`html > [head, body#b]`. -/
def demoDocC9b : DomDoc :=
  some (.elem { tag := "html", attrs := [], style := [] }
    [.elem { tag := "head", attrs := [], style := [] } [],
     .elem { tag := "body", attrs := [("id", "b")], style := [] } []])

/-- C9 counterexample: the body carries the document-unique id `b`, yet
the synthesized selector is the literal `body`, not `#b` — the body
check precedes the id check — so "emitting '#' plus the escaped id"
fails for this element (the literal selector does still resolve to the
body). -/
theorem c9_counterexample :
    (docElemDataAt demoDocC9b [1]).map idOf = some "b"
    ∧ ((docPaths demoDocC9b).filter
        (fun q => (docElemDataAt demoDocC9b q).map idOf == some "b")) = [[1]]
    ∧ getSelector demoDocC9b [1] = Sel.chain [SPart.tagName "body"]
    ∧ getSelector demoDocC9b [1] ≠ Sel.chain [SPart.idSel "b"] :=
  ⟨rfl, by decide, rfl, by decide⟩

end Canvas
